import Mathlib

/-!
Verification development for the logos code-intelligence engine
(crates logos-refactor, logos-index, logos-semantic).

Source text is modelled as a list of characters (`Str`); columns and byte
offsets of the Rust code are represented as character indices.  The Rust
functions below are translated one definition per source function, keeping
the source names.  Stateful accumulation (the analysis context of the C++
adapter, the mutable detector of the unused pass) is rendered as explicit
state passing or as delta-returning functions appended in emission order.
-/

/-- Character-list representation of Rust `&str` / `String` values. -/
abbrev Str := List Char

/-- The double-quote character. -/
def quoteChar : Char := Char.ofNat 34

/-- The single-quote character. -/
def squoteChar : Char := Char.ofNat 39

/-- The backtick character. -/
def btickChar : Char := Char.ofNat 96

/-- The opening-brace character. -/
def lbraceChar : Char := Char.ofNat 123

/-- The closing-brace character. -/
def rbraceChar : Char := Char.ofNat 125

/-- The backslash character. -/
def bslashChar : Char := Char.ofNat 92

/-- Word character of the `\w` regex class (ASCII reading). -/
def isWordChar (c : Char) : Bool := c.isAlphanum || c = '_'

/-- First character of the `[a-zA-Z_]` regex class. -/
def isIdentStart (c : Char) : Bool := c.isAlpha || c = '_'

/-- ASCII lower-casing, as used on access-specifier keywords. -/
def asciiLower (c : Char) : Char :=
  if c.toNat ≥ 65 ∧ c.toNat ≤ 90 then Char.ofNat (c.toNat + 32) else c

/-- Rust `str::trim_start`. -/
def trimLeft (s : Str) : Str := s.dropWhile Char.isWhitespace

/-- Rust `str::trim_end`. -/
def trimRight (s : Str) : Str := (s.reverse.dropWhile Char.isWhitespace).reverse

/-- Rust `str::trim`. -/
def trim (s : Str) : Str := trimRight (trimLeft s)

/-- Splits at every occurrence of a separator character; yields the
(possibly empty) fragments between separators, like Rust `str::split`. -/
def splitChar (sep : Char) : Str → List Str
  | [] => [[]]
  | c :: rest =>
    match splitChar sep rest with
    | [] => [[c]]
    | h :: t => if c = sep then [] :: h :: t else (c :: h) :: t

/-- Strips one trailing carriage return, as Rust `str::lines` does per line. -/
def stripCR (s : Str) : Str :=
  if s.getLast? = some '\r' then s.dropLast else s

/-- Rust `str::lines`: split on newline, drop a final empty fragment
produced by a trailing newline, strip a trailing carriage return. -/
def linesOf (s : Str) : List Str :=
  let parts := splitChar '\n' s
  let parts := if parts.getLast? = some [] then parts.dropLast else parts
  parts.map stripCR

/-- Tests an occurrence of `pat` starting exactly at the head of `s`. -/
def isSubAt (pat s : Str) : Bool := pat.isPrefixOf s

/-- Fuel-driven scan counting the non-overlapping occurrences of a
non-empty pattern, leftmost first — Rust `str::matches(..).count()`. -/
def countMatchesAux (pat : Str) : Nat → Str → Nat
  | 0, _ => 0
  | _ + 1, [] => 0
  | fuel + 1, c :: rest =>
    if isSubAt pat (c :: rest) then 1 + countMatchesAux pat fuel ((c :: rest).drop pat.length)
    else countMatchesAux pat fuel rest

/-- Number of non-overlapping occurrences of `pat` in `s`. -/
def countMatches (s pat : Str) : Nat :=
  if pat = [] then s.length + 1 else countMatchesAux pat (s.length + 1) s

/-- Position of the first occurrence of `pat` in `s`, like Rust `str::find`. -/
def findSub (s pat : Str) : Option Nat :=
  (List.range (s.length + 1)).find? (fun i => isSubAt pat (s.drop i))

/-- Whether `pat` occurs somewhere in `s` (Rust `str::contains`). -/
def strContains (s pat : Str) : Bool := (findSub s pat).isSome

/-- Rust `str::starts_with`. -/
def strStartsWith (s pat : Str) : Bool := pat.isPrefixOf s

/-- Rust `str::ends_with`. -/
def strEndsWith (s pat : Str) : Bool := pat.isSuffixOf s

/-- Rust `str::split_whitespace`: maximal non-whitespace runs. -/
def splitWhitespaceAux : Str → List Str
  | [] => []
  | c :: rest =>
    if c.isWhitespace then splitWhitespaceAux rest
    else
      match splitWhitespaceAux rest with
      | [] => [[c]]
      | h :: t =>
        match rest with
        | [] => [[c]]
        | r :: _ => if r.isWhitespace then [c] :: h :: t else (c :: h) :: t

/-- Rust `str::split_whitespace` (wrapper). -/
def split_whitespace (s : Str) : List Str := splitWhitespaceAux s

/-- Rust `str::split` with the non-word-character predicate used by the
unused-symbol detector: fragments between non-word characters. -/
def splitNonWord : Str → List Str
  | [] => [[]]
  | c :: rest =>
    match splitNonWord rest with
    | [] => [[c]]
    | h :: t => if isWordChar c then (c :: h) :: t else [] :: h :: t

/- ————————————————————————————————————————————————————————————————————— -/
/- logos_core: positions, ranges, locations.                              -/
/- ————————————————————————————————————————————————————————————————————— -/

/-- Modelled from the spec (the `logos-core` crate is not among the given
sources): a zero-based line/column position, §3 of the spec. -/
structure Position where
  line : Nat
  column : Nat
deriving DecidableEq, Repr

/-- Lexicographic strict order on positions (line, then column). -/
def posLt (a b : Position) : Bool :=
  a.line < b.line || (a.line = b.line && a.column < b.column)

/-- Lexicographic order on positions (line, then column). -/
def posLe (a b : Position) : Bool := posLt a b || a = b

/-- Modelled from the spec: a (start, end) range of positions, §3. -/
structure Range where
  start : Position
  stop : Position
deriving DecidableEq, Repr

/-- Rust `Range::point`. -/
def Range.point (line column : Nat) : Range :=
  { start := { line := line, column := column },
    stop := { line := line, column := column } }

/-- Rust `Range::from_coords`. -/
def Range.from_coords (sl sc el ec : Nat) : Range :=
  { start := { line := sl, column := sc }, stop := { line := el, column := ec } }

/-- Modelled from the spec: range overlap; a range is half-open (the spec
has `start == end` denote an insertion point, i.e. an empty range), so two
ranges overlap when they share at least one position. -/
def Range.overlaps (a b : Range) : Bool :=
  posLt a.start b.stop && posLt b.start a.stop

/-- Modelled from the spec: a document location (uri plus range). -/
structure Location where
  uri : String
  range : Range
deriving DecidableEq, Repr

/- ————————————————————————————————————————————————————————————————————— -/
/- logos_refactor::lib — edits, results, actions, errors, context.        -/
/- ————————————————————————————————————————————————————————————————————— -/

/-- Language identifiers of `logos_parser::LanguageId` (constructors taken
from the exhaustive match in `generate_declaration`). -/
inductive LanguageId where
  | Python | JavaScript | TypeScript | Rust | Go | Java | C | Cpp
deriving DecidableEq, Repr

/-- A text edit to be applied to a document (`TextEdit` in lib.rs). -/
structure TextEdit where
  range : Range
  new_text : Str
deriving DecidableEq, Repr

/-- Rust `TextEdit::insert`. -/
def TextEdit.insert (position : Position) (text : Str) : TextEdit :=
  { range := Range.point position.line position.column, new_text := text }

/-- Rust `TextEdit::delete`. -/
def TextEdit.delete (range : Range) : TextEdit :=
  { range := range, new_text := [] }

/-- Rust `TextEdit.replace`. -/
def TextEdit.replace (range : Range) (text : Str) : TextEdit :=
  { range := range, new_text := text }

/-- Result of a refactoring operation (`RefactorResult` in lib.rs). -/
structure RefactorResult where
  edits : List TextEdit
  generated_code : Option Str
  description : Str
deriving DecidableEq, Repr

/-- Rust `RefactorResult::new`. -/
def RefactorResult.new (edits : List TextEdit) (description : Str) : RefactorResult :=
  { edits := edits, generated_code := none, description := description }

/-- Rust `RefactorResult::with_generated_code`. -/
def RefactorResult.with_generated_code (r : RefactorResult) (code : Str) : RefactorResult :=
  { r with generated_code := some code }

/-- Types of refactoring operations (`RefactorKind`). -/
inductive RefactorKind where
  | ExtractVariable | ExtractMethod | InlineVariable | SafeDelete | Rename
deriving DecidableEq, Repr

/-- An available or unavailable refactoring action (`RefactorAction`). -/
structure RefactorAction where
  id : String
  title : String
  kind : RefactorKind
  is_available : Bool
  unavailable_reason : Option String
deriving DecidableEq, Repr

/-- Rust `RefactorAction::available`. -/
def RefactorAction.available (id title : String) (kind : RefactorKind) : RefactorAction :=
  { id := id, title := title, kind := kind, is_available := true, unavailable_reason := none }

/-- Rust `RefactorAction::unavailable`. -/
def RefactorAction.unavailable (id title : String) (kind : RefactorKind) (reason : String) : RefactorAction :=
  { id := id, title := title, kind := kind, is_available := false, unavailable_reason := some reason }

/-- Errors of refactoring operations (`RefactorError`). -/
inductive RefactorError where
  | InvalidSelection (msg : String)
  | CannotExtract (msg : String)
  | HasSideEffects
  | SymbolInUse (locs : List Location)
  | NoExpression
  | MultipleStatements
  | UnknownType
  | ControlFlowIssue (msg : String)
  | ParseError (msg : String)
deriving DecidableEq, Repr

/-- Display form of a `RefactorError` (the `thiserror` format strings). -/
def RefactorError.toDisplay : RefactorError → String
  | .InvalidSelection m => "Invalid selection: " ++ m
  | .CannotExtract m => "Cannot extract: " ++ m
  | .HasSideEffects => "Expression has side effects"
  | .SymbolInUse _ => "Symbol is still in use"
  | .NoExpression => "No expression at selection"
  | .MultipleStatements => "Selection spans multiple statements"
  | .UnknownType => "Cannot determine expression type"
  | .ControlFlowIssue m => "Control flow issue: " ++ m
  | .ParseError m => "Parse error: " ++ m

/-- Context for refactoring operations (`RefactorContext`). -/
structure RefactorContext where
  source : Str
  uri : String
  selection : Range
  language : LanguageId
deriving DecidableEq, Repr

/-- Slice of one line used by `text_in_range`: Rust `&line[a..b]` after the
two `.min(line.len())` clamps (the Rust byte slice, at character level). -/
def lineSlice (line : Str) (a b : Nat) : Str := (line.drop a).take (b - a)

/-- Per-line slice of the multi-line arm of `text_in_range`: the first
selected line loses its clamped prefix (`&line[start..]`), the last
selected line keeps its clamped prefix (`&line[..end]`), middle lines
stay whole. -/
def sliceAt (lines : List Str) (range : Range) (i : Nat) : Str :=
  let line := lines.getD i []
  if i = range.start.line then line.drop (min range.start.column line.length)
  else if i = range.stop.line then line.take (min range.stop.column line.length)
  else line

/-- Loop body of the multi-line arm of `text_in_range`: visits lines
`i, i+1, …` while `i ≤ stop.line` and `i < lines.len()` (the Rust `break`),
slicing each visited line with `sliceAt` and separating lines by a newline
when more selected lines follow.  The first argument is the loop fuel,
instantiated with the number of remaining iterations. -/
def text_in_range_loop (lines : List Str) (range : Range) : Nat → Nat → Str
  | 0, _ => []
  | fuel + 1, i =>
    if i ≥ lines.length then []
    else
      sliceAt lines range i ++ (if i < range.stop.line then ['\n'] else [])
        ++ text_in_range_loop lines range fuel (i + 1)

/-- Rust `RefactorContext::text_in_range`. -/
def RefactorContext.text_in_range (ctx : RefactorContext) (range : Range) : Str :=
  let lines := linesOf ctx.source
  if range.start.line ≥ lines.length then []
  else if range.start.line = range.stop.line then
    let line := lines.getD range.start.line []
    lineSlice line (min range.start.column line.length) (min range.stop.column line.length)
  else
    text_in_range_loop lines range (range.stop.line + 1 - range.start.line) range.start.line

/-- Rust `RefactorContext::selected_text`. -/
def RefactorContext.selected_text (ctx : RefactorContext) : Str :=
  ctx.text_in_range ctx.selection

/-- Rust `RefactorContext::line_at`. -/
def RefactorContext.line_at (ctx : RefactorContext) (line : Nat) : Option Str :=
  (linesOf ctx.source).get? line

/-- Rust `RefactorContext::indentation_at`. -/
def RefactorContext.indentation_at (ctx : RefactorContext) (line : Nat) : Str :=
  match ctx.line_at line with
  | some text => text.take (text.length - (trimLeft text).length)
  | none => []

/- ————————————————————————————————————————————————————————————————————— -/
/- logos_refactor::analysis — expression validity and insertion points.   -/
/- ————————————————————————————————————————————————————————————————————— -/

namespace analysis

/-- Keywords of the first incomplete-statement regex
`^(if|else|for|while|switch|case|try|catch|finally)\s*$`. -/
def incompleteKws1 : List Str :=
  [['i','f'], ['e','l','s','e'], ['f','o','r'], ['w','h','i','l','e'],
   ['s','w','i','t','c','h'], ['c','a','s','e'], ['t','r','y'],
   ['c','a','t','c','h'], ['f','i','n','a','l','l','y']]

/-- Whole-string match of `^(if|else|for|while|switch|case|try|catch|finally)\s*$`. -/
def matchesIncomplete1 (t : Str) : Bool :=
  incompleteKws1.any (fun kw => strStartsWith t kw && (t.drop kw.length).all Char.isWhitespace)

/-- Whole-string match of `^\w+\s*:\s*$` (label without statement). -/
def matchesIncomplete2 (t : Str) : Bool :=
  let w := t.takeWhile isWordChar
  let r := (t.drop w.length).dropWhile Char.isWhitespace
  !w.isEmpty && r.head? = some ':' && r.tail.all Char.isWhitespace

/-- Keywords of `^(let|const|var|function|class|interface|type)\s+\w*$`. -/
def incompleteKws3 : List Str :=
  [['l','e','t'], ['c','o','n','s','t'], ['v','a','r'],
   ['f','u','n','c','t','i','o','n'], ['c','l','a','s','s'],
   ['i','n','t','e','r','f','a','c','e'], ['t','y','p','e']]

/-- Whole-string match of `^(let|const|var|function|class|interface|type)\s+\w*$`
(incomplete declaration). -/
def matchesIncomplete3 (t : Str) : Bool :=
  incompleteKws3.any (fun kw =>
    strStartsWith t kw &&
    (match (t.drop kw.length).head? with
     | some c => c.isWhitespace && ((t.drop kw.length).dropWhile Char.isWhitespace).all isWordChar
     | none => false))

/-- State step of the delimiter scanner of `has_balanced_delimiters`; the
state is (stack, in_string, string_char, prev_char). -/
def has_balanced_delimiters_loop : Str → List Char → Bool → Char → Char → Bool
  | [], stack, inString, _, _ => stack.isEmpty && !inString
  | ch :: rest, stack, inString, stringChar, prevChar =>
    if inString then
      if ch = stringChar && prevChar ≠ bslashChar then
        has_balanced_delimiters_loop rest stack false stringChar ch
      else
        has_balanced_delimiters_loop rest stack true stringChar ch
    else if ch = quoteChar || ch = squoteChar || ch = btickChar then
      has_balanced_delimiters_loop rest stack true ch ch
    else if ch = '(' || ch = '[' || ch = lbraceChar then
      has_balanced_delimiters_loop rest (ch :: stack) false stringChar ch
    else if ch = ')' then
      match stack with
      | top :: stack' => if top = '(' then has_balanced_delimiters_loop rest stack' false stringChar ch else false
      | [] => false
    else if ch = ']' then
      match stack with
      | top :: stack' => if top = '[' then has_balanced_delimiters_loop rest stack' false stringChar ch else false
      | [] => false
    else if ch = rbraceChar then
      match stack with
      | top :: stack' => if top = lbraceChar then has_balanced_delimiters_loop rest stack' false stringChar ch else false
      | [] => false
    else
      has_balanced_delimiters_loop rest stack false stringChar ch

/-- Rust `analysis::has_balanced_delimiters`. -/
def has_balanced_delimiters (text : Str) : Bool :=
  has_balanced_delimiters_loop text [] false quoteChar ' '

/-- Python statement starts rejected by `is_valid_python_expression`. -/
def pythonStatementStarts : List Str :=
  [['d','e','f',' '], ['c','l','a','s','s',' '], ['i','f',' '], ['f','o','r',' '],
   ['w','h','i','l','e',' '], ['t','r','y',':'], ['e','x','c','e','p','t',':'],
   ['w','i','t','h',' ']]

/-- Rust `analysis::is_valid_python_expression`. -/
def is_valid_python_expression (text : Str) : Bool :=
  !(pythonStatementStarts.any (fun s => strStartsWith text s)) && text.getLast? ≠ some ':'

/-- JavaScript statement starts rejected by `is_valid_js_expression`. -/
def jsStatementStarts : List Str :=
  [['f','u','n','c','t','i','o','n',' '], ['c','l','a','s','s',' '], ['i','f',' '],
   ['f','o','r',' '], ['w','h','i','l','e',' '], ['s','w','i','t','c','h',' '],
   ['t','r','y',' '], ['c','o','n','s','t',' '], ['l','e','t',' '], ['v','a','r',' ']]

/-- Arrow token of JavaScript lambda literals. -/
def arrowToken : Str := ['=', '>']

/-- Rust `analysis::is_valid_js_expression`. -/
def is_valid_js_expression (text : Str) : Bool :=
  !(jsStatementStarts.any (fun s => strStartsWith text s && !(strContains text arrowToken)))

/-- Rust statement starts rejected by `is_valid_rust_expression`. -/
def rustStatementStarts : List Str :=
  [['f','n',' '], ['s','t','r','u','c','t',' '], ['e','n','u','m',' '],
   ['i','m','p','l',' '], ['t','r','a','i','t',' '], ['m','o','d',' '],
   ['u','s','e',' '], ['p','u','b',' ']]

/-- Rust `analysis::is_valid_rust_expression`. -/
def is_valid_rust_expression (text : Str) : Bool :=
  !(rustStatementStarts.any (fun s => strStartsWith text s)) && text.getLast? ≠ some lbraceChar

/-- Go statement starts rejected by `is_valid_go_expression`. -/
def goStatementStarts : List Str :=
  [['f','u','n','c',' '], ['t','y','p','e',' '], ['v','a','r',' '],
   ['c','o','n','s','t',' '], ['p','a','c','k','a','g','e',' '],
   ['i','m','p','o','r','t',' ']]

/-- Rust `analysis::is_valid_go_expression`. -/
def is_valid_go_expression (text : Str) : Bool :=
  !(goStatementStarts.any (fun s => strStartsWith text s)) && text.getLast? ≠ some lbraceChar

/-- Rust `analysis::is_valid_expression`. -/
def is_valid_expression (text : Str) (language : LanguageId) : Bool :=
  let trimmed := trim text
  if trimmed.isEmpty then false
  else if !has_balanced_delimiters trimmed then false
  else if matchesIncomplete1 trimmed || matchesIncomplete2 trimmed || matchesIncomplete3 trimmed then false
  else
    match language with
    | .Python => is_valid_python_expression trimmed
    | .JavaScript => is_valid_js_expression trimmed
    | .TypeScript => is_valid_js_expression trimmed
    | .Rust => is_valid_rust_expression trimmed
    | .Go => is_valid_go_expression trimmed
    | _ => trimmed.getLast? ≠ some lbraceChar && trimmed.head? ≠ some rbraceChar

/-- Python statement-start test of `find_declaration_insertion_point`. -/
def pythonInsertionStarts : List Str :=
  [['i','f',' '], ['f','o','r',' '], ['w','h','i','l','e',' '], ['d','e','f',' '],
   ['c','l','a','s','s',' '], ['r','e','t','u','r','n',' '], ['w','i','t','h',' ']]

/-- Rust-language statement-start keywords of `find_declaration_insertion_point`. -/
def rustInsertionStarts : List Str :=
  [['l','e','t',' '], ['i','f',' '], ['f','o','r',' '], ['w','h','i','l','e',' '],
   ['m','a','t','c','h',' '], ['r','e','t','u','r','n',' '], ['f','n',' ']]

/-- Default-language statement-start keywords of `find_declaration_insertion_point`. -/
def defaultInsertionStarts : List Str :=
  [['c','o','n','s','t',' '], ['l','e','t',' '], ['v','a','r',' '], ['i','f',' '],
   ['f','o','r',' '], ['w','h','i','l','e',' '], ['r','e','t','u','r','n',' '],
   ['f','u','n','c','t','i','o','n',' ']]

/-- The per-line statement-start test of `find_declaration_insertion_point`. -/
def is_statement_start (lines : List Str) (language : LanguageId) (i : Nat) : Bool :=
  let line := trim (lines.getD i [])
  match language with
  | .Python =>
    pythonInsertionStarts.any (fun s => strStartsWith line s)
      || (decide (i > 0) && (trim (lines.getD (i - 1) [])).isEmpty)
      || i = 0
  | .Rust =>
    rustInsertionStarts.any (fun s => strStartsWith line s)
      || (decide (i > 0) && (trim (lines.getD (i - 1) [])).getLast? = some ';')
      || (decide (i > 0) && (trim (lines.getD (i - 1) [])).getLast? = some rbraceChar)
      || i = 0
  | _ =>
    defaultInsertionStarts.any (fun s => strStartsWith line s)
      || (decide (i > 0) && (trim (lines.getD (i - 1) [])).getLast? = some ';')
      || (decide (i > 0) && (trim (lines.getD (i - 1) [])).getLast? = some rbraceChar)
      || i = 0

/-- Downward search of `find_declaration_insertion_point`: the greatest
line index `≤ i` whose line passes `is_statement_start` (index 0 always
passes, so the search terminates there at the latest). -/
def find_statement_line (lines : List Str) (language : LanguageId) : Nat → Nat
  | 0 => 0
  | i + 1 =>
    if is_statement_start lines language (i + 1) then i + 1
    else find_statement_line lines language i

/-- Rust `analysis::find_declaration_insertion_point`. -/
def find_declaration_insertion_point (source : Str) (expression_range : Range)
    (language : LanguageId) : Position :=
  let lines := linesOf source
  let exprLine := expression_range.start.line
  if exprLine ≥ lines.length then { line := 0, column := 0 }
  else
    let targetLine := find_statement_line lines language exprLine
    let tl := lines.getD targetLine []
    let indent := tl.length - (trimLeft tl).length
    { line := targetLine, column := indent }

end analysis

/- ————————————————————————————————————————————————————————————————————— -/
/- logos_refactor::extract_variable.                                      -/
/- ————————————————————————————————————————————————————————————————————— -/

namespace extract_variable

/-- Rust `extract_variable::can_extract`. -/
def can_extract (ctx : RefactorContext) : Except RefactorError Bool :=
  let selected := trim ctx.selected_text
  if selected.isEmpty then .error .NoExpression
  else if !(analysis.is_valid_expression selected ctx.language) then
    .error (.CannotExtract "Selection is not a valid expression")
  else .ok true

/-- Stable insertion placing `x` before the first element `y` with
`le x y`; used to mirror the stable Rust `sort_by`. -/
def insertSortedBy (le : Range → Range → Bool) (x : Range) : List Range → List Range
  | [] => [x]
  | y :: ys => if le x y then x :: y :: ys else y :: insertSortedBy le x ys

/-- Stable sort used for `sorted_occurrences.sort_by(|a, b| b.start.cmp(&a.start))`:
descending by range start. -/
def sortByStartDescending (l : List Range) : List Range :=
  l.foldr (insertSortedBy (fun a b => posLe b.start a.start)) []

/-- Declaration texts of `generate_declaration` piecewise; Rust
`format!` with a trailing newline. -/
def generate_declaration (name value : Str) (language : LanguageId) (indent : Str) : Str :=
  match language with
  | .Python => indent ++ name ++ " = ".toList ++ value ++ ['\n']
  | .JavaScript => indent ++ "const ".toList ++ name ++ " = ".toList ++ value ++ [';', '\n']
  | .TypeScript => indent ++ "const ".toList ++ name ++ " = ".toList ++ value ++ [';', '\n']
  | .Rust => indent ++ "let ".toList ++ name ++ " = ".toList ++ value ++ [';', '\n']
  | .Go => indent ++ name ++ " := ".toList ++ value ++ ['\n']
  | .Java => indent ++ "var ".toList ++ name ++ " = ".toList ++ value ++ [';', '\n']
  | .C => indent ++ "auto ".toList ++ name ++ " = ".toList ++ value ++ [';', '\n']
  | .Cpp => indent ++ "auto ".toList ++ name ++ " = ".toList ++ value ++ [';', '\n']

/-- Rust `extract_variable::extract`. -/
def extract (ctx : RefactorContext) (variable_name : Str) : Except RefactorError RefactorResult := do
  let _ ← can_extract ctx
  let selected := ctx.selected_text
  let trimmed := trim selected
  let insert_pos := analysis.find_declaration_insertion_point ctx.source ctx.selection ctx.language
  let indent := ctx.indentation_at insert_pos.line
  let declaration := generate_declaration variable_name trimmed ctx.language indent
  let occurrences := [ctx.selection]
  let sorted_occurrences := sortByStartDescending occurrences
  let edits := sorted_occurrences.map (fun occurrence => TextEdit.replace occurrence variable_name)
  let edits := edits ++ [TextEdit.insert insert_pos declaration]
  .ok ((RefactorResult.new edits
        ("Extract '".toList ++ trimmed ++ "' to variable '".toList ++ variable_name ++ ['\x27'])).with_generated_code declaration)

end extract_variable

/- ————————————————————————————————————————————————————————————————————— -/
/- logos_refactor::extract_method (modelled).                             -/
/- ————————————————————————————————————————————————————————————————————— -/

namespace extract_method

/-- Modelled from the spec: `extract_method::can_extract` — the
extract_method.rs file of the crate is not among the given sources; §4.4
gives Extract Method the "same precondition family as Extract Variable":
selection non-empty after trim, delimiters balanced, selection not an
incomplete fragment (bare control/declaration keyword or dangling label). -/
def can_extract (ctx : RefactorContext) : Except RefactorError Bool :=
  let selected := trim ctx.selected_text
  if selected.isEmpty then .error .NoExpression
  else if !(analysis.has_balanced_delimiters selected) then
    .error (.CannotExtract "Unbalanced delimiters in selection")
  else if analysis.matchesIncomplete1 selected || analysis.matchesIncomplete2 selected
      || analysis.matchesIncomplete3 selected then
    .error (.CannotExtract "Selection is an incomplete fragment")
  else .ok true

end extract_method

/- ————————————————————————————————————————————————————————————————————— -/
/- logos_refactor — RefactorEngine dispatch.                              -/
/- ————————————————————————————————————————————————————————————————————— -/

namespace safe_delete

/-- Result of the safe-delete analysis (`SafeDeleteAnalysis`). -/
structure SafeDeleteAnalysis where
  can_delete : Bool
  symbol_name : Str
  symbol_range : Range
  usages : List Location
  warnings : List Str
deriving DecidableEq, Repr

/-- Rust `SafeDeleteAnalysis::safe`. -/
def SafeDeleteAnalysis.safe (symbol_name : Str) (symbol_range : Range) : SafeDeleteAnalysis :=
  { can_delete := true, symbol_name := symbol_name, symbol_range := symbol_range,
    usages := [], warnings := [] }

/-- Keywords of the optional declaration prefix in the `extract_symbol_name`
regex `^(?:(?:let|const|var|function|class|def|fn|func|type)\s+)?([a-zA-Z_][a-zA-Z0-9_]*)`,
in the alternation order of the pattern. -/
def symbolNameKws : List Str :=
  [['l','e','t'], ['c','o','n','s','t'], ['v','a','r'],
   ['f','u','n','c','t','i','o','n'], ['c','l','a','s','s'], ['d','e','f'],
   ['f','n'], ['f','u','n','c'], ['t','y','p','e']]

/-- Capture of `[a-zA-Z_][a-zA-Z0-9_]*` anchored at the head of `t`. -/
def captureIdent (t : Str) : Option Str :=
  match t.head? with
  | some c => if isIdentStart c then some (t.takeWhile isWordChar) else none
  | none => none

/-- Attempt of the keyword-prefixed branch of the `extract_symbol_name`
regex: a keyword, at least one whitespace character, then a captured
identifier; alternatives are tried in pattern order, as regex backtracking
does. -/
def tryKeywordPrefix (t : Str) : Option Str :=
  symbolNameKws.findSome? (fun kw =>
    if strStartsWith t kw then
      match (t.drop kw.length).head? with
      | some c =>
        if c.isWhitespace then captureIdent ((t.drop kw.length).dropWhile Char.isWhitespace)
        else none
      | none => none
    else none)

/-- Rust `safe_delete::extract_symbol_name`: the anchored regex first
(optional declaration keyword, then an identifier), then the
first-word-like-sequence fallback. -/
def extract_symbol_name (text : Str) : Str :=
  match tryKeywordPrefix text with
  | some name => name
  | none =>
    match captureIdent text with
    | some name => name
    | none => text.takeWhile isWordChar

/-- Whole-word occurrence of `name` at character index `i` of `line`
(the regex `\b name \b` of `find_usages`). -/
def wordMatchAt (line name : Str) (i : Nat) : Bool :=
  decide (i + name.length ≤ line.length)
    && isSubAt name (line.drop i)
    && (i = 0 || !(isWordChar (line.getD (i - 1) ' ')))
    && (i + name.length = line.length || !(isWordChar (line.getD (i + name.length) ' ')))

/-- All whole-word match start columns of `name` in one line.  With word
boundaries on both sides matches cannot overlap, so this filter equals the
leftmost non-overlapping `find_iter` enumeration of the Rust regex. -/
def wordMatchColumns (line name : Str) : List Nat :=
  (List.range (line.length + 1)).filter (wordMatchAt line name)

/-- Rust `safe_delete::find_usages`: per line, every whole-word match of
the symbol name, as a location in the context's document. -/
def find_usages (ctx : RefactorContext) (name : Str) : List Location :=
  ((linesOf ctx.source).enum).flatMap (fun p =>
    (wordMatchColumns p.2 name).map (fun c =>
      { uri := ctx.uri, range := Range.from_coords p.1 c p.1 (c + name.length) }))

/-- Rust `safe_delete::analyze`. -/
def analyze (ctx : RefactorContext) : Except RefactorError SafeDeleteAnalysis :=
  let selected_text := trim ctx.selected_text
  if selected_text.isEmpty then
    .error (.InvalidSelection "No symbol selected")
  else
    let symbol_name := extract_symbol_name selected_text
    if symbol_name.isEmpty then
      .error (.InvalidSelection "Could not identify symbol name")
    else
      let usages := find_usages ctx symbol_name
      let can_delete := usages.length ≤ 1
      if can_delete then
        .ok (SafeDeleteAnalysis.safe symbol_name ctx.selection)
      else
        let other_usages := usages.filter (fun loc => !(loc.range.overlaps ctx.selection))
        if other_usages.isEmpty then
          .ok (SafeDeleteAnalysis.safe symbol_name ctx.selection)
        else
          .ok { can_delete := false, symbol_name := symbol_name,
                symbol_range := ctx.selection, usages := other_usages, warnings := [] }

/-- Rust `safe_delete::can_delete`. -/
def can_delete (ctx : RefactorContext) : Except RefactorError Bool := do
  let a ← analyze ctx
  .ok a.can_delete

/-- Rust `safe_delete::find_deletion_range`. -/
def find_deletion_range (ctx : RefactorContext) (a : SafeDeleteAnalysis) : Range :=
  let lines := linesOf ctx.source
  let symbol_line := a.symbol_range.start.line
  if symbol_line ≥ lines.length then a.symbol_range
  else
    let line := lines.getD symbol_line []
    let is_single_line := a.symbol_range.start.line = a.symbol_range.stop.line
    if is_single_line then
      let trimmed := trim line
      let symbol_text := ctx.text_in_range a.symbol_range
      if trimmed = symbol_text
          || (strEndsWith trimmed [';'] && trim trimmed.dropLast = symbol_text) then
        if symbol_line + 1 < lines.length then
          Range.from_coords symbol_line 0 (symbol_line + 1) 0
        else
          Range.from_coords symbol_line 0 symbol_line line.length
      else a.symbol_range
    else
      let end_line := a.symbol_range.stop.line
      if end_line + 1 < lines.length then
        Range.from_coords symbol_line 0 (end_line + 1) 0
      else a.symbol_range

/-- Rust `safe_delete::delete`. -/
def delete (ctx : RefactorContext) : Except RefactorError RefactorResult := do
  let a ← analyze ctx
  if !a.can_delete then
    .error (.SymbolInUse a.usages)
  else
    let delete_range := find_deletion_range ctx a
    let edits := [TextEdit.delete delete_range]
    .ok (RefactorResult.new edits
      ("Delete unused symbol '".toList ++ a.symbol_name ++ ['\x27']))

end safe_delete

namespace RefactorEngine

/-- Rust `RefactorEngine::get_actions`: the Extract Variable check, then
the Extract Method check; an erring check contributes an unavailable entry
with the error's display text, `Ok(true)` contributes an available entry,
`Ok(false)` contributes nothing. -/
def get_actions (ctx : RefactorContext) : List RefactorAction :=
  (match extract_variable.can_extract ctx with
   | .ok true =>
     [RefactorAction.available "extract-variable" "Extract Variable" RefactorKind.ExtractVariable]
   | .ok false => []
   | .error e =>
     [RefactorAction.unavailable "extract-variable" "Extract Variable"
       RefactorKind.ExtractVariable e.toDisplay])
  ++
  (match extract_method.can_extract ctx with
   | .ok true =>
     [RefactorAction.available "extract-method" "Extract Method" RefactorKind.ExtractMethod]
   | .ok false => []
   | .error e =>
     [RefactorAction.unavailable "extract-method" "Extract Method"
       RefactorKind.ExtractMethod e.toDisplay])

/-- Names dispatched by `RefactorEngine::execute`. -/
def evActionId : String := "extract-variable"

/-- Extract-method action id. -/
def emActionId : String := "extract-method"

/-- Safe-delete action id. -/
def sdActionId : String := "safe-delete"

/-- Default variable name of `execute`. -/
def defaultVarName : Str := "extracted".toList

/-- Default method name of `execute`. -/
def defaultMethodName : Str := "extractedMethod".toList

/-- Modelled from the spec: `extract_method::extract` is in the missing
extract_method.rs; `execute` only forwards to it, and no claim depends on
its behaviour, so it is represented as an uninterpreted failing stub used
solely to keep the dispatch shape of `execute`. -/
def extract_method_extract (_ctx : RefactorContext) (_name : Str) :
    Except RefactorError RefactorResult :=
  .error (.CannotExtract "extract_method::extract not modelled")

/-- Rust `RefactorEngine::execute`. -/
def execute (ctx : RefactorContext) (action_id : String) (new_name : Option Str) :
    Except RefactorError RefactorResult :=
  if action_id = evActionId then
    extract_variable.extract ctx (new_name.getD defaultVarName)
  else if action_id = emActionId then
    extract_method_extract ctx (new_name.getD defaultMethodName)
  else if action_id = sdActionId then
    safe_delete.delete ctx
  else
    .error (.InvalidSelection ("Unknown action: " ++ action_id))

end RefactorEngine

/- ————————————————————————————————————————————————————————————————————— -/
/- logos_index::cpp_adapter — the C++ language adapter.                   -/
/- ————————————————————————————————————————————————————————————————————— -/

/-- Modelled from the spec (symbol_table.rs is not among the given
sources): member visibility, §3 of the spec. -/
inductive Visibility where
  | Public | Protected | Private
deriving DecidableEq, Repr

/-- Symbol kinds of `logos_core::SymbolKind` (constructors taken from the
uses in cpp_adapter.rs and unused.rs). -/
inductive SymbolKind where
  | Function | Method | Class | Struct | Field | Variable | Constant
  | Namespace | Module | Interface | Enum | Property | TypeParameter
deriving DecidableEq, Repr

/-- A concrete-syntax-tree node as consumed by the adapter (§6 of the
spec): kind tag, original text, the field label its parent attaches to it,
position range, and named children.  The tree-sitter byte-range text
slicing is represented by each node carrying its own text. -/
inductive Node where
  | mk (kind : String) (text : Str) (fieldName : Option String) (range : Range)
       (children : List Node)

/-- Kind tag of a node. -/
def Node.kind : Node → String | .mk k _ _ _ _ => k

/-- Original text of a node (`AnalysisContext::get_text`). -/
def Node.text : Node → Str | .mk _ t _ _ _ => t

/-- Field label of a node under its parent. -/
def Node.fieldName : Node → Option String | .mk _ _ f _ _ => f

/-- Named children of a node. -/
def Node.children : Node → List Node | .mk _ _ _ _ c => c

/-- Rust `node_to_range` (tree-sitter start/end positions). -/
def node_to_range : Node → Range | .mk _ _ _ r _ => r

/-- Tree-sitter `child_by_field_name`. -/
def child_by_field_name (n : Node) (fname : String) : Option Node :=
  n.children.find? (fun c => c.fieldName = some fname)

/-- An imported item (`ImportItem` of the adapter module, modelled from
its uses in cpp_adapter.rs; the `alias` field is rendered `alias_name`,
`alias` being reserved in Lean). -/
structure ImportItem where
  name : Str
  alias_name : Option Str
  is_type : Bool
deriving DecidableEq, Repr

/-- An import record (`ImportInfo`, modelled from its uses). -/
structure ImportInfo where
  module_path : Str
  items : List ImportItem
  is_type_only : Bool
  location : Range
deriving DecidableEq, Repr

/-- A call-site record (`CallInfo`, modelled from its uses). -/
structure CallInfo where
  callee_name : Str
  qualified_name : Option Str
  location : Range
  is_constructor : Bool
deriving DecidableEq, Repr

/-- Modelled from the spec: an indexed symbol (§3).  The per-index numeric
id, the parent id and the child list are omitted: no claim mentions them,
and the adapter assigns them through the builder not shown in the given
sources. -/
structure IndexSymbol where
  name : Str
  kind : SymbolKind
  uri : String
  range : Range
  selection_range : Range
  visibility : Visibility
  exported : Bool
  qualified_name : Str
deriving DecidableEq, Repr

/-- Result of one `analyze` call (`AnalysisResult`). -/
structure AnalysisResult where
  symbols : List IndexSymbol
  imports : List ImportInfo
  calls : List CallInfo
deriving DecidableEq, Repr

/-- Rust `AnalysisResult::default`. -/
def AnalysisResult.empty : AnalysisResult :=
  { symbols := [], imports := [], calls := [] }

/-- Concatenation of analysis deltas; the Rust code pushes into one
mutable result, modelled by appending deltas in emission order. -/
def AnalysisResult.app (a b : AnalysisResult) : AnalysisResult :=
  { symbols := a.symbols ++ b.symbols,
    imports := a.imports ++ b.imports,
    calls := a.calls ++ b.calls }

/-- Read-only part of `AnalysisContext`: the uri and the scope stack
(frame names, outermost first).  Frame symbol ids are omitted with the
symbol ids themselves. -/
structure ScopeCtx where
  uri : String
  scope_stack : List Str
deriving DecidableEq, Repr

/-- Scope-stack push of the adapter (`scope_stack.push`). -/
def ScopeCtx.push (sc : ScopeCtx) (name : Str) : ScopeCtx :=
  { sc with scope_stack := sc.scope_stack ++ [name] }

/-- The `::` separator. -/
def scopeSep : Str := [':', ':']

/-- Rust `AnalysisContext::qualified_name`: scope names joined by `::`,
then the new name. -/
def ScopeCtx.qualified_name (sc : ScopeCtx) (name : Str) : Str :=
  if sc.scope_stack.isEmpty then name
  else (scopeSep.intercalate sc.scope_stack) ++ scopeSep ++ name

namespace cpp_adapter

/-- Characters kept by the identifier cleaner of `extract_decl_name`. -/
def isCleanChar (c : Char) : Bool := c.isAlphanum || c = '_'

/-- Container keywords skipped by the fallback of `extract_decl_name`. -/
def skippedTokens : List Str :=
  [['c','l','a','s','s'], ['s','t','r','u','c','t'], ['p','u','b','l','i','c'],
   ['p','r','i','v','a','t','e'], ['p','r','o','t','e','c','t','e','d'],
   ['n','a','m','e','s','p','a','c','e']]

/-- First loop of `extract_decl_name`: find the declaring keyword and read
the next identifier-shaped token; an empty cleaned token keeps scanning. -/
def extract_decl_name_scan (keyword : Str) : List Str → Option Str
  | [] => none
  | tok :: rest =>
    if tok = keyword then
      match rest with
      | name :: rest' =>
        let clean := name.takeWhile isCleanChar
        if clean.isEmpty then extract_decl_name_scan keyword rest' else some clean
      | [] => none
    else extract_decl_name_scan keyword rest

/-- Second loop of `extract_decl_name`: the first identifier-like token
that is not a container keyword. -/
def extract_decl_name_fallback : List Str → Option Str
  | [] => none
  | tok :: rest =>
    let clean := tok.takeWhile isCleanChar
    if clean.isEmpty then extract_decl_name_fallback rest
    else if skippedTokens.contains clean then extract_decl_name_fallback rest
    else some clean

/-- Rust `extract_decl_name`. -/
def extract_decl_name (text : Str) (keyword : Str) : Option Str :=
  match extract_decl_name_scan keyword (split_whitespace text) with
  | some name => some name
  | none => extract_decl_name_fallback (split_whitespace text)

mutual
/-- Rust `find_identifier_in_declarator`. -/
def find_identifier_in_declarator : Node → Option Node
  | .mk k t f r cs =>
    if k = "identifier" then some (.mk k t f r cs)
    else find_identifier_in_declarator_list cs

/-- Child loop of `find_identifier_in_declarator`. -/
def find_identifier_in_declarator_list : List Node → Option Node
  | [] => none
  | c :: rest =>
    match find_identifier_in_declarator c with
    | some found => some found
    | none => find_identifier_in_declarator_list rest
end

/-- Direct-children pass of `find_first_named_of_kinds`. -/
def find_direct_of_kinds (kinds : List String) (cs : List Node) : Option Node :=
  cs.find? (fun c => kinds.contains c.kind)

mutual
/-- Rust `find_first_named_of_kinds`: direct children first, then a
recursive depth-first search. -/
def find_first_named_of_kinds : Node → List String → Option Node
  | .mk _ _ _ _ cs, kinds =>
    match find_direct_of_kinds kinds cs with
    | some found => some found
    | none => find_first_named_of_kinds_list cs kinds

/-- Recursive pass of `find_first_named_of_kinds` over the children. -/
def find_first_named_of_kinds_list : List Node → List String → Option Node
  | [], _ => none
  | c :: rest, kinds =>
    match find_first_named_of_kinds c kinds with
    | some found => some found
    | none => find_first_named_of_kinds_list rest kinds
end

/-- The `#include` directive token. -/
def includeToken : Str := ['#','i','n','c','l','u','d','e']

/-- Rust `analyze_include`. -/
def analyze_include (n : Node) : AnalysisResult :=
  let text := n.text
  match findSub text includeToken with
  | some idx =>
    let rest := trim (text.drop (idx + includeToken.length))
    if rest.isEmpty then AnalysisResult.empty
    else
      { symbols := [], calls := [],
        imports := [{ module_path := rest,
                      items := [{ name := rest, alias_name := none, is_type := false }],
                      is_type_only := false,
                      location := node_to_range n }] }
  | none => AnalysisResult.empty

/-- Rust `analyze_call`. -/
def analyze_call (n : Node) : AnalysisResult :=
  match child_by_field_name n "function" with
  | some function =>
    let text := function.text
    { symbols := [], imports := [],
      calls := [{ callee_name := text,
                  qualified_name :=
                    if strContains text scopeSep || strContains text ['.'] then some text else none,
                  location := node_to_range n,
                  is_constructor := false }] }
  | none => AnalysisResult.empty

/-- Name-node kinds searched for class-like declarations. -/
def typeNameKinds : List String := ["type_identifier", "identifier"]

/-- Name-node kinds searched for members. -/
def memberNameKinds : List String := ["field_identifier", "identifier"]

/-- Name-node kinds searched for namespaces. -/
def namespaceNameKinds : List String := ["namespace_identifier", "identifier"]

/-- Rust `analyze_class_decl` (forward declarations, no body). -/
def analyze_class_decl (n : Node) (sc : ScopeCtx) : AnalysisResult :=
  let keyword := if n.kind = "struct_declaration" then "struct".toList else "class".toList
  let name_node :=
    match child_by_field_name n "name" with
    | some found => some found
    | none => find_first_named_of_kinds n typeNameKinds
  let name :=
    match name_node with
    | some nn => nn.text
    | none => (extract_decl_name n.text keyword).getD []
  if name.isEmpty then AnalysisResult.empty
  else
    let kind := if n.kind = "struct_declaration" then SymbolKind.Struct else SymbolKind.Class
    let name_range := (name_node.map node_to_range).getD (node_to_range n)
    { imports := [], calls := [],
      symbols := [{ name := name, kind := kind, uri := sc.uri,
                    range := node_to_range n, selection_range := name_range,
                    visibility := Visibility.Public, exported := true,
                    qualified_name := sc.qualified_name name }] }

/-- Rust `access_specifier` text parsing inside
`analyze_field_declaration_list`: trim, lower-case, strip trailing colons,
trim again; `public`/`protected` recognized, anything else private. -/
def access_specifier_visibility (text : Str) : Visibility :=
  let t := (trim text).map asciiLower
  let t := trim ((t.reverse.dropWhile (fun c => c = ':')).reverse)
  if t = "public".toList then Visibility.Public
  else if t = "protected".toList then Visibility.Protected
  else Visibility.Private

/-- Rust `analyze_field_with_visibility` (no recursion into children). -/
def analyze_field_with_visibility (n : Node) (sc : ScopeCtx) (visibility : Visibility) :
    AnalysisResult :=
  match find_first_named_of_kinds n memberNameKinds with
  | some name_node =>
    let name := name_node.text
    { imports := [], calls := [],
      symbols := [{ name := name, kind := SymbolKind.Field, uri := sc.uri,
                    range := node_to_range n, selection_range := node_to_range name_node,
                    visibility := visibility,
                    exported := visibility = Visibility.Public,
                    qualified_name := sc.qualified_name name }] }
  | none => AnalysisResult.empty

/-- Symbol part of `analyze_method_with_visibility`: the method symbol and
the scope-frame name, when a name node is found in the declarator. -/
def method_symbol (n : Node) (sc : ScopeCtx) (visibility : Visibility) :
    Option (IndexSymbol × Str) :=
  match child_by_field_name n "declarator" with
  | some d =>
    match find_first_named_of_kinds d memberNameKinds with
    | some name_node =>
      let name := name_node.text
      some ({ name := name, kind := SymbolKind.Method, uri := sc.uri,
              range := node_to_range n, selection_range := node_to_range name_node,
              visibility := visibility,
              exported := visibility = Visibility.Public,
              qualified_name := sc.qualified_name name }, name)
    | none => none
  | none => none

/-- Symbol part of `analyze_function`: the function symbol and the
scope-frame name, when the declarator holds an identifier. -/
def function_symbol (n : Node) (sc : ScopeCtx) : Option (IndexSymbol × Str) :=
  match child_by_field_name n "declarator" with
  | some d =>
    match find_identifier_in_declarator d with
    | some name_node =>
      let name := name_node.text
      some ({ name := name, kind := SymbolKind.Function, uri := sc.uri,
              range := node_to_range n, selection_range := node_to_range name_node,
              visibility := Visibility.Public, exported := true,
              qualified_name := sc.qualified_name name }, name)
    | none => none
  | none => none

/-- Symbol part of `analyze_class_or_struct`: the class or struct symbol
and the scope-frame name, unless no name can be resolved. -/
def class_or_struct_symbol (n : Node) (sc : ScopeCtx) : Option (IndexSymbol × Str) :=
  let name_node :=
    match child_by_field_name n "name" with
    | some found => some found
    | none => find_first_named_of_kinds n typeNameKinds
  let keyword := if n.kind = "struct_specifier" then "struct".toList else "class".toList
  let name :=
    match name_node with
    | some nn => nn.text
    | none => (extract_decl_name n.text keyword).getD []
  if name.isEmpty then none
  else
    let kind := if n.kind = "struct_specifier" then SymbolKind.Struct else SymbolKind.Class
    let name_range := (name_node.map node_to_range).getD (node_to_range n)
    some ({ name := name, kind := kind, uri := sc.uri,
            range := node_to_range n, selection_range := name_range,
            visibility := Visibility.Public, exported := true,
            qualified_name := sc.qualified_name name }, name)

/-- Symbol part of `analyze_namespace`. -/
def namespace_symbol (n : Node) (sc : ScopeCtx) : Option (IndexSymbol × Str) :=
  let name_node :=
    match child_by_field_name n "name" with
    | some found => some found
    | none => find_first_named_of_kinds n namespaceNameKinds
  match name_node with
  | some nn =>
    let name := nn.text
    some ({ name := name, kind := SymbolKind.Namespace, uri := sc.uri,
            range := node_to_range n, selection_range := node_to_range nn,
            visibility := Visibility.Public, exported := true,
            qualified_name := sc.qualified_name name }, name)
  | none => none

/-- Grammar default visibility for a class or struct body
(`analyze_class_or_struct`): structs public, classes private. -/
def default_visibility (kind : String) : Visibility :=
  if kind = "struct_specifier" then Visibility.Public else Visibility.Private

/-- Wrapper of one symbol as a delta. -/
def symbolDelta (s : IndexSymbol) : AnalysisResult :=
  { symbols := [s], imports := [], calls := [] }

mutual
/-- Rust `analyze_node`: kind dispatch; the per-kind symbol computations
live in the helper definitions above, the recursion into children in the
list helpers below (the body walks of `analyze_function`,
`analyze_class_or_struct`, `analyze_method_with_visibility` and
`analyze_namespace` are fused with the `child_by_field_name("body")`
search through `analyze_body_child` and `analyze_class_body_child`). -/
def analyze_node : Node → ScopeCtx → AnalysisResult
  | .mk k t f r cs, sc =>
    if k = "preproc_include" then analyze_include (.mk k t f r cs)
    else if k = "function_definition" then
      match function_symbol (.mk k t f r cs) sc with
      | some (sym, name) =>
        (symbolDelta sym).app (analyze_body_child cs (sc.push name))
      | none => AnalysisResult.empty
    else if k = "class_specifier" || k = "struct_specifier" then
      match class_or_struct_symbol (.mk k t f r cs) sc with
      | some (sym, name) =>
        (symbolDelta sym).app
          (analyze_class_body_child cs (sc.push name) (default_visibility k))
      | none => AnalysisResult.empty
    else if k = "class_declaration" || k = "struct_declaration" then
      analyze_class_decl (.mk k t f r cs) sc
    else if k = "type_definition" || k = "declaration" then
      analyze_typedef_children cs sc
    else if k = "namespace_definition" then
      match namespace_symbol (.mk k t f r cs) sc with
      | some (sym, name) =>
        (symbolDelta sym).app (analyze_body_child cs (sc.push name))
      | none => AnalysisResult.empty
    else if k = "call_expression" then analyze_call (.mk k t f r cs)
    else analyze_children cs sc

/-- Default recursion of `analyze_node` over named children. -/
def analyze_children : List Node → ScopeCtx → AnalysisResult
  | [], _ => AnalysisResult.empty
  | c :: rest, sc => (analyze_node c sc).app (analyze_children rest sc)

/-- Child loop of the `type_definition` / `declaration` arm of
`analyze_node`: class-like children are analyzed, others skipped. -/
def analyze_typedef_children : List Node → ScopeCtx → AnalysisResult
  | [], _ => AnalysisResult.empty
  | (Node.mk ck ct cf cr ccs) :: rest, sc =>
    let here :=
      if ck = "class_specifier" || ck = "struct_specifier" then
        match class_or_struct_symbol (.mk ck ct cf cr ccs) sc with
        | some (sym, name) =>
          (symbolDelta sym).app
            (analyze_class_body_child ccs (sc.push name) (default_visibility ck))
        | none => AnalysisResult.empty
      else if ck = "class_declaration" || ck = "struct_declaration" then
        analyze_class_decl (.mk ck ct cf cr ccs) sc
      else AnalysisResult.empty
    here.app (analyze_typedef_children rest sc)

/-- Fused `child_by_field_name("body")` search and recursion: the first
child labelled `body` is analyzed with `analyze_node`, a missing body
child contributes nothing. -/
def analyze_body_child : List Node → ScopeCtx → AnalysisResult
  | [], _ => AnalysisResult.empty
  | c :: rest, sc =>
    if c.fieldName = some "body" then analyze_node c sc
    else analyze_body_child rest sc

/-- Fused `child_by_field_name("body")` search of
`analyze_class_or_struct`: the first child labelled `body` is analyzed
with `analyze_class_body` under the given default visibility. -/
def analyze_class_body_child : List Node → ScopeCtx → Visibility → AnalysisResult
  | [], _, _ => AnalysisResult.empty
  | c :: rest, sc, d =>
    if c.fieldName = some "body" then analyze_class_body c sc d
    else analyze_class_body_child rest sc d

/-- Rust `analyze_class_body`. -/
def analyze_class_body : Node → ScopeCtx → Visibility → AnalysisResult
  | .mk k _ _ _ cs, sc, d =>
    if k = "field_declaration_list" then analyze_fdl_children cs sc d
    else analyze_class_body_children cs sc d

/-- Child loop of the non-`field_declaration_list` arm of
`analyze_class_body`. -/
def analyze_class_body_children : List Node → ScopeCtx → Visibility → AnalysisResult
  | [], _, _ => AnalysisResult.empty
  | (Node.mk ck ct cf cr ccs) :: rest, sc, d =>
    let here :=
      if ck = "field_declaration_list" then analyze_fdl_children ccs sc d
      else if ck = "field_declaration" then
        analyze_field_with_visibility (.mk ck ct cf cr ccs) sc d
      else if ck = "function_definition" then
        match method_symbol (.mk ck ct cf cr ccs) sc d with
        | some (sym, name) =>
          (symbolDelta sym).app (analyze_body_child ccs (sc.push name))
        | none => AnalysisResult.empty
      else analyze_node (.mk ck ct cf cr ccs) sc
    here.app (analyze_class_body_children rest sc d)

/-- Child loop of `analyze_field_declaration_list`: members in document
order under the current visibility, updated by access specifiers. -/
def analyze_fdl_children : List Node → ScopeCtx → Visibility → AnalysisResult
  | [], _, _ => AnalysisResult.empty
  | (Node.mk ck ct cf cr ccs) :: rest, sc, current =>
    if ck = "access_specifier" then
      analyze_fdl_children rest sc (access_specifier_visibility ct)
    else
      let here :=
        if ck = "field_declaration" then
          analyze_field_with_visibility (.mk ck ct cf cr ccs) sc current
        else if ck = "function_definition" then
          match method_symbol (.mk ck ct cf cr ccs) sc current with
          | some (sym, name) =>
            (symbolDelta sym).app (analyze_body_child ccs (sc.push name))
          | none => AnalysisResult.empty
        else analyze_node (.mk ck ct cf cr ccs) sc
      here.app (analyze_fdl_children rest sc current)
end

/-- Rust `analyze_method_with_visibility` (assembled from the mutual
pieces, definitionally equal to the corresponding `analyze_fdl_children`
arm). -/
def analyze_method_with_visibility (n : Node) (sc : ScopeCtx) (visibility : Visibility) :
    AnalysisResult :=
  match method_symbol n sc visibility with
  | some (sym, name) =>
    (symbolDelta sym).app (analyze_body_child n.children (sc.push name))
  | none => AnalysisResult.empty

/-- Rust `analyze_field_declaration_list` (wrapper over the child loop). -/
def analyze_field_declaration_list (n : Node) (sc : ScopeCtx) (d : Visibility) :
    AnalysisResult :=
  analyze_fdl_children n.children sc d

/-- Rust `analyze_class_or_struct` (assembled from the mutual pieces). -/
def analyze_class_or_struct (n : Node) (sc : ScopeCtx) : AnalysisResult :=
  match class_or_struct_symbol n sc with
  | some (sym, name) =>
    (symbolDelta sym).app
      (analyze_class_body_child n.children (sc.push name) (default_visibility n.kind))
  | none => AnalysisResult.empty

/-- Rust `CppAdapter::analyze`: the parse outcome of the reusable
tree-sitter parser is an explicit argument (the parser is an external
collaborator, §6); a failed parse yields the default (empty) result. -/
def CppAdapter.analyze (uri : String) (parse_outcome : Option Node) : AnalysisResult :=
  match parse_outcome with
  | some tree => analyze_node tree { uri := uri, scope_stack := [] }
  | none => AnalysisResult.empty

end cpp_adapter

/- ————————————————————————————————————————————————————————————————————— -/
/- logos_semantic::unused — unused-symbol detection.                      -/
/- ————————————————————————————————————————————————————————————————————— -/

/-- A document symbol of `logos_core::Symbol` as consumed by the unused
pass (fields taken from the constructions in the unused.rs tests):
name, kind, whole range, selection range, detail, children.  Named
`CoreSymbol` here because `Symbol` is taken by the ambient library. -/
inductive CoreSymbol where
  | mk (name : Str) (kind : SymbolKind) (range : Range) (selection_range : Range)
       (detail : Option Str) (children : List CoreSymbol)

/-- Name of a document symbol. -/
def CoreSymbol.name : CoreSymbol → Str | .mk n _ _ _ _ _ => n

/-- Kind of a document symbol. -/
def CoreSymbol.kind : CoreSymbol → SymbolKind | .mk _ k _ _ _ _ => k

/-- Selection range of a document symbol. -/
def CoreSymbol.selection_range : CoreSymbol → Range | .mk _ _ _ s _ _ => s

/-- Children of a document symbol. -/
def CoreSymbol.children : CoreSymbol → List CoreSymbol | .mk _ _ _ _ _ c => c

namespace unused

/-- The kind of an unused item (`UnusedKind`). -/
inductive UnusedKind where
  | Variable | Function | Import | Parameter | Class | Constant | TypeAlias
deriving DecidableEq, Repr

/-- An unused item found in source code (`UnusedItem`). -/
structure UnusedItem where
  kind : UnusedKind
  name : Str
  range : Range
  can_remove : Bool
  fix_action : Option Str
deriving DecidableEq, Repr

/-- One entry of the `defined_symbols` map: the Rust value triple
(range, kind, is_used). -/
structure SymEntry where
  range : Range
  kind : UnusedKind
  used : Bool
deriving DecidableEq, Repr

/-- The detector state (`UnusedDetector`); the hash map is modelled as an
association list with replace-on-insert, the reference set as a
duplicate-free list. -/
structure UnusedDetector where
  defined_symbols : List (Str × SymEntry)
  references : List Str
  ignore_patterns : List Str
deriving DecidableEq, Repr

/-- Rust `UnusedDetector::new` (default ignore pattern `_`). -/
def UnusedDetector.new : UnusedDetector :=
  { defined_symbols := [], references := [], ignore_patterns := [['_']] }

/-- The special names always ignored by `should_ignore`. -/
def specialNames : List Str :=
  [['s','e','l','f'], ['c','l','s'], ['t','h','i','s'], ['s','u','p','e','r'],
   ['m','a','i','n'], ['i','n','i','t'], ['_','_','i','n','i','t','_','_'],
   ['n','e','w']]

/-- Rust `UnusedDetector::should_ignore`. -/
def UnusedDetector.should_ignore (d : UnusedDetector) (name : Str) : Bool :=
  d.ignore_patterns.any (fun pattern => strStartsWith name pattern)
    || specialNames.contains name

/-- Rust `UnusedDetector::symbol_kind_to_unused_kind`. -/
def symbol_kind_to_unused_kind : SymbolKind → Option UnusedKind
  | .Variable => some .Variable
  | .Function => some .Function
  | .Method => some .Function
  | .Class => some .Class
  | .Struct => some .Class
  | .Constant => some .Constant
  | .TypeParameter => some .TypeAlias
  | .Module => some .Import
  | _ => none

/-- Map insertion with hash-map replace semantics. -/
def insertEntry (m : List (Str × SymEntry)) (name : Str) (e : SymEntry) :
    List (Str × SymEntry) :=
  if m.any (fun p => p.1 = name) then
    m.map (fun p => if p.1 = name then (name, e) else p)
  else m ++ [(name, e)]

/-- Rust `UnusedDetector::register_definition`. -/
def UnusedDetector.register_definition (d : UnusedDetector) (name : Str) (range : Range)
    (kind : SymbolKind) : UnusedDetector :=
  if d.should_ignore name then d
  else
    match symbol_kind_to_unused_kind kind with
    | some unused_kind =>
      { d with defined_symbols :=
          insertEntry d.defined_symbols name { range := range, kind := unused_kind, used := false } }
    | none => d

/-- Rust `UnusedDetector::mark_used`. -/
def UnusedDetector.mark_used (d : UnusedDetector) (name : Str) : UnusedDetector :=
  { d with defined_symbols :=
      d.defined_symbols.map (fun p => if p.1 = name then (p.1, { p.2 with used := true }) else p) }

/-- Key membership in the `defined_symbols` map. -/
def UnusedDetector.containsKey (d : UnusedDetector) (name : Str) : Bool :=
  d.defined_symbols.any (fun p => p.1 = name)

/-- Rust `UnusedDetector::clear`. -/
def UnusedDetector.clear (d : UnusedDetector) : UnusedDetector :=
  { d with defined_symbols := [], references := [] }

/-- Rust `UnusedDetector::collect_definitions`: register each symbol (on
its selection range), recursing into children. -/
def collect_definitions : UnusedDetector → List CoreSymbol → UnusedDetector
  | d, [] => d
  | d, (CoreSymbol.mk name kind _range selection_range _detail children) :: rest =>
    collect_definitions
      (collect_definitions (d.register_definition name selection_range kind) children) rest

/-- Step of `collect_references` for one split word. -/
def collect_references_step (source : Str) (d : UnusedDetector) (word : Str) : UnusedDetector :=
  if !word.isEmpty && !(d.should_ignore word) then
    if d.containsKey word then
      if countMatches source word > 1 then d.mark_used word else d
    else d
  else d

/-- Rust `UnusedDetector::collect_references`: word-split scan of the
source, marking a defined name used when the raw substring count of the
name in the whole source exceeds one. -/
def collect_references (d : UnusedDetector) (source : Str) : UnusedDetector :=
  (splitNonWord source).foldl (collect_references_step source) d

/-- Fix action text of `report_unused` per kind. -/
def fix_action_for (kind : UnusedKind) (name : Str) : Option Str :=
  match kind with
  | .Variable => some ("Prefix with underscore: _".toList ++ name)
  | .Parameter => some ("Prefix with underscore: _".toList ++ name)
  | .Import => some "Remove unused import".toList
  | .Function => some "Remove or export if intended as public API".toList
  | .Class => some "Remove or export if intended as public API".toList
  | _ => none

/-- The unused item built by `report_unused` for one map entry. -/
def unused_item_of (name : Str) (e : SymEntry) : UnusedItem :=
  { kind := e.kind, name := name, range := e.range,
    can_remove := e.kind = .Variable || e.kind = .Import || e.kind = .Constant,
    fix_action := fix_action_for e.kind name }

/-- The `sort_by` comparison of `report_unused`: start line, then start
column (non-strict, as `cmp(..).then_with(..) != Greater`). -/
def unusedLe (a b : UnusedItem) : Bool :=
  a.range.start.line < b.range.start.line
    || (a.range.start.line = b.range.start.line
        && a.range.start.column ≤ b.range.start.column)

/-- Stable insertion used to model the stable Rust `sort_by`. -/
def insertUnusedSorted (x : UnusedItem) : List UnusedItem → List UnusedItem
  | [] => [x]
  | y :: ys => if unusedLe x y then x :: y :: ys else y :: insertUnusedSorted x ys

/-- Stable sort by range start position. -/
def sortUnused (l : List UnusedItem) : List UnusedItem :=
  l.foldr insertUnusedSorted []

/-- Rust `UnusedDetector::report_unused`. -/
def UnusedDetector.report_unused (d : UnusedDetector) : List UnusedItem :=
  sortUnused (d.defined_symbols.filterMap (fun p =>
    if p.2.used then none else some (unused_item_of p.1 p.2)))

/-- Rust `UnusedDetector::analyze`: clear, collect definitions, collect
references, mark the explicitly registered references used (a list that is
always empty after `clear`), report. -/
def UnusedDetector.analyze (d : UnusedDetector) (symbols : List CoreSymbol) (source : Str) :
    List UnusedItem :=
  let d := d.clear
  let d := collect_definitions d symbols
  let d := collect_references d source
  let refs := d.references
  let d := refs.foldl UnusedDetector.mark_used d
  d.report_unused

end unused

/- ————————————————————————————————————————————————————————————————————— -/
/- Specification-side definitions used by the theorem statements.         -/
/- ————————————————————————————————————————————————————————————————————— -/

/-- Join of per-line slices by single newlines. -/
def joinWithNewlines : List Str → Str
  | [] => []
  | [x] => x
  | x :: y :: rest => x ++ ['\n'] ++ joinWithNewlines (y :: rest)

namespace cpp_adapter

/-- Current visibility after scanning a prefix of the member list: the
grammar default updated by every access specifier seen so far. -/
def visAfter (d : Visibility) (cs : List Node) : Visibility :=
  cs.foldl
    (fun v c => if c.kind = "access_specifier" then access_specifier_visibility c.text else v) d

/-- Contribution of one member-list child under a given current
visibility (the arms of the `analyze_field_declaration_list` loop). -/
def fdl_child_delta (c : Node) (sc : ScopeCtx) (v : Visibility) : AnalysisResult :=
  if c.kind = "access_specifier" then AnalysisResult.empty
  else if c.kind = "field_declaration" then analyze_field_with_visibility c sc v
  else if c.kind = "function_definition" then analyze_method_with_visibility c sc v
  else analyze_node c sc

/-- Concatenation of a list of analysis deltas. -/
def joinAR : List AnalysisResult → AnalysisResult
  | [] => AnalysisResult.empty
  | a :: rest => a.app (joinAR rest)

end cpp_adapter

/- ————————————————————————————————————————————————————————————————————— -/
/- Concrete instances used by counterexamples and witnesses.              -/
/- ————————————————————————————————————————————————————————————————————— -/

/-- JavaScript context of §8 of the spec: `console.log(a + b);` with the
selection covering `a + b`. -/
def ctxJS : RefactorContext :=
  { source := "console.log(a + b);".toList, uri := "test.js",
    selection := Range.from_coords 0 12 0 17, language := .JavaScript }

/-- Python context with the same expression selected in `print(a + b)`. -/
def ctxPy : RefactorContext :=
  { source := "print(a + b)".toList, uri := "test.py",
    selection := Range.from_coords 0 6 0 11, language := .Python }

/-- Rust context with the same expression selected in `foo(a + b);`. -/
def ctxRustLang : RefactorContext :=
  { source := "foo(a + b);".toList, uri := "test.rs",
    selection := Range.from_coords 0 4 0 9, language := .Rust }

/-- Go context with the same expression selected in `foo(a + b)`. -/
def ctxGoLang : RefactorContext :=
  { source := "foo(a + b)".toList, uri := "test.go",
    selection := Range.from_coords 0 4 0 9, language := .Go }

/-- Context whose selection starts at column 0 of an indented expression
line, placing the computed insertion point to the right of the selection
start on the same line. -/
def ctxC2 : RefactorContext :=
  { source := "  a + b".toList, uri := "test.js",
    selection := Range.from_coords 0 0 0 7, language := .JavaScript }

/-- The extraction result on `ctxC2`. -/
def rC2 : RefactorResult :=
  { edits := [TextEdit.replace (Range.from_coords 0 0 0 7) ("sum".toList),
              TextEdit.insert { line := 0, column := 2 } ("  const sum = a + b;\n".toList)],
    generated_code := some ("  const sum = a + b;\n".toList),
    description := "Extract 'a + b' to variable 'sum'".toList }

/-- The extraction result on `ctxJS`. -/
def rJS : RefactorResult :=
  { edits := [TextEdit.replace (Range.from_coords 0 12 0 17) ("sum".toList),
              TextEdit.insert { line := 0, column := 0 } ("const sum = a + b;\n".toList)],
    generated_code := some ("const sum = a + b;\n".toList),
    description := "Extract 'a + b' to variable 'sum'".toList }

/-- Safe-delete context of §8 of the spec: `let foo = 1;` then
`console.log(foo);`, selecting `foo` in the declaration. -/
def ctxFoo : RefactorContext :=
  { source := ("let foo = 1;\nconsole.log(foo);").toList, uri := "test.js",
    selection := Range.from_coords 0 4 0 7, language := .JavaScript }

/-- The single non-overlapping usage of `foo` in `ctxFoo`. -/
def fooUsage : Location :=
  { uri := "test.js", range := Range.from_coords 1 12 1 15 }

/-- Safe-delete context whose selected text `foo` has exactly one
whole-word match in the document — on the other line, outside the
selection: the selection slices the middle of `xfoox`. -/
def ctxC4ce : RefactorContext :=
  { source := "xfoox\nfoo".toList, uri := "t.js",
    selection := Range.from_coords 0 1 0 4, language := .JavaScript }

/-- Safe-delete context on the single line `foo;` selecting `foo`. -/
def ctxC5 : RefactorContext :=
  { source := "foo;".toList, uri := "t.js",
    selection := Range.from_coords 0 0 0 3, language := .JavaScript }

/-- The deletion result on `ctxC5`. -/
def rC5 : RefactorResult :=
  { edits := [TextEdit.delete (Range.from_coords 0 0 0 4)],
    generated_code := none,
    description := "Delete unused symbol 'foo'".toList }

/-- Context with an empty selection. -/
def ctxEmpty : RefactorContext :=
  { source := "x".toList, uri := "t.js",
    selection := Range.from_coords 0 0 0 0, language := .JavaScript }

/-- Context selecting the rejected fragment `if `. -/
def ctxIf : RefactorContext :=
  { source := "if x".toList, uri := "t.js",
    selection := Range.from_coords 0 0 0 3, language := .JavaScript }

/-- Context selecting the unbalanced fragment `(a + b`. -/
def ctxParen : RefactorContext :=
  { source := "(a + b".toList, uri := "t.js",
    selection := Range.from_coords 0 0 0 6, language := .JavaScript }

/-- Two-line context used by the text_in_range theorems. -/
def ctxTwoLines : RefactorContext :=
  { source := "console\nlog".toList, uri := "t.js",
    selection := Range.from_coords 0 0 0 0, language := .JavaScript }

/-- Scope context of a class `C` in a document `u`. -/
def scC : ScopeCtx := { uri := "u", scope_stack := [['C']] }

/-- A `public:` access-specifier node. -/
def accessPub : Node :=
  .mk "access_specifier" ("public:".toList) none (Range.from_coords 1 0 1 7) []

/-- A `private:` access-specifier node. -/
def accessPriv : Node :=
  .mk "access_specifier" ("private:".toList) none (Range.from_coords 3 0 3 8) []

/-- A field-declaration node `int x;` with its field identifier. -/
def fieldNode : Node :=
  .mk "field_declaration" ("int x;".toList) none (Range.from_coords 2 2 2 8)
    [.mk "field_identifier" ("x".toList) none (Range.from_coords 2 6 2 7) []]

/-- A second field-declaration node `int y;`. -/
def fieldNodeY : Node :=
  .mk "field_declaration" ("int y;".toList) none (Range.from_coords 4 2 4 8)
    [.mk "field_identifier" ("y".toList) none (Range.from_coords 4 6 4 7) []]

/-- A method node `void m() {}` with declarator and body children. -/
def methodNode : Node :=
  .mk "function_definition" ("void m() {}".toList) none (Range.from_coords 5 2 5 13)
    [.mk "function_declarator" ("m()".toList) (some "declarator") (Range.from_coords 5 7 5 10)
      [.mk "field_identifier" ("m".toList) none (Range.from_coords 5 7 5 8) []],
     .mk "compound_statement" [] (some "body") (Range.from_coords 5 11 5 13) []]

/-- A member list holding the nodes above. -/
def fdlNode : Node :=
  .mk "field_declaration_list" [] (some "body") (Range.from_coords 0 8 6 1)
    [accessPub, fieldNode, accessPriv, fieldNodeY, methodNode]

/-- A class node `class K` whose body is `fdlNode`. -/
def classNode : Node :=
  .mk "class_specifier" ("class K".toList) none (Range.from_coords 0 0 6 2)
    [.mk "type_identifier" ("K".toList) (some "name") (Range.from_coords 0 6 0 7) [],
     fdlNode]

/-- An unused-pass document symbol `foo` (a variable on line 0). -/
def symFoo : CoreSymbol :=
  .mk ("foo".toList) .Variable (Range.from_coords 0 0 0 3) (Range.from_coords 0 0 0 3) none []

/-- Source in which `foo` occurs twice as a raw substring but never as a
standalone word. -/
def srcC10 : Str := "foobar foobaz".toList

/-- The extraction result on `ctxPy`. -/
def rPy : RefactorResult :=
  { edits := [TextEdit.replace (Range.from_coords 0 6 0 11) ("sum".toList),
              TextEdit.insert { line := 0, column := 0 } ("sum = a + b\n".toList)],
    generated_code := some ("sum = a + b\n".toList),
    description := "Extract 'a + b' to variable 'sum'".toList }

/-- The deletion result on `ctxC4ce`. -/
def rC4ce : RefactorResult :=
  { edits := [TextEdit.delete (Range.from_coords 0 1 0 4)],
    generated_code := none,
    description := "Delete unused symbol 'foo'".toList }

/-- The field symbol produced for `fieldNode` under public visibility. -/
def fieldSymX : IndexSymbol :=
  { name := "x".toList, kind := .Field, uri := "u", range := Range.from_coords 2 2 2 8,
    selection_range := Range.from_coords 2 6 2 7, visibility := .Public, exported := true,
    qualified_name := "C::x".toList }

/-- The method symbol produced for `methodNode` under private visibility. -/
def methodSymM : IndexSymbol :=
  { name := "m".toList, kind := .Method, uri := "u", range := Range.from_coords 5 2 5 13,
    selection_range := Range.from_coords 5 7 5 8, visibility := .Private, exported := false,
    qualified_name := "C::m".toList }

/-- The class symbol produced for `classNode` under scope `C`. -/
def classSymK : IndexSymbol :=
  { name := "K".toList, kind := .Class, uri := "u", range := Range.from_coords 0 0 6 2,
    selection_range := Range.from_coords 0 6 0 7, visibility := .Public, exported := true,
    qualified_name := "C::K".toList }

/-- The unused item reported for `symFoo` in `srcC10`. -/
def fooUnusedItem : unused.UnusedItem :=
  { kind := .Variable, name := "foo".toList, range := Range.from_coords 0 0 0 3,
    can_remove := true, fix_action := some ("Prefix with underscore: _foo".toList) }

/-- Decidable equality for `Except`, used to evaluate the embedded
fallible operations on concrete inputs. -/
def exceptDecEq {e a : Type} [DecidableEq e] [DecidableEq a] :
    DecidableEq (Except e a)
  | .error x, .error y =>
    if h : x = y then .isTrue (by rw [h]) else .isFalse (by intro hh; cases hh; exact h rfl)
  | .error _, .ok _ => .isFalse (by intro h; cases h)
  | .ok _, .error _ => .isFalse (by intro h; cases h)
  | .ok x, .ok y =>
    if h : x = y then .isTrue (by rw [h]) else .isFalse (by intro hh; cases hh; exact h rfl)

instance {e a : Type} [DecidableEq e] [DecidableEq a] : DecidableEq (Except e a) :=
  exceptDecEq

/- ————————————————————————————————————————————————————————————————————— -/
/- Theorems.                                                              -/
/- ————————————————————————————————————————————————————————————————————— -/

/-- Dropping a satisfying prefix twice is dropping it once. -/
theorem dropWhile_idem (p : Char → Bool) (l : Str) :
    (l.dropWhile p).dropWhile p = l.dropWhile p := by
  induction l with
  | nil => rfl
  | cons a l ih =>
    by_cases h : p a
    · simp [List.dropWhile, h, ih]
    · simp [List.dropWhile, h]

/-- A prefix of a left-trimmed list is left-trimmed. -/
theorem dropWhile_eq_self_of_prefix (p : Char → Bool) {u v : Str}
    (hu : u.dropWhile p = u) (hpre : v <+: u) : v.dropWhile p = v := by
  cases v with
  | nil => rfl
  | cons a v' =>
    cases u with
    | nil => simp at hpre
    | cons b u' =>
      obtain ⟨t, ht⟩ := hpre
      have hab : a = b := by
        have := congrArg (fun l => l.head?) ht
        simpa using this
      subst hab
      have hpb : ¬ p a := by
        by_contra hp
        simp only [List.dropWhile, hp] at hu
        exact absurd (congrArg List.length hu)
          (by
            have : (u'.dropWhile p).length ≤ u'.length :=
              (List.dropWhile_suffix p).sublist.length_le
            simp
            omega)
      simp [List.dropWhile, hpb]

/-- Right trimming only removes a suffix. -/
theorem trimRight_isPrefixOf (s : Str) : trimRight s <+: s := by
  have h : s.reverse.dropWhile Char.isWhitespace <:+ s.reverse := List.dropWhile_suffix _
  have := List.reverse_prefix.mpr (by simpa using h)
  simpa [trimRight] using this

/-- Rust trimming is idempotent. -/
theorem trim_trim (s : Str) : trim (trim s) = trim s := by
  have hleft : (trim s).dropWhile Char.isWhitespace = trim s := by
    have h1 : (trimLeft s).dropWhile Char.isWhitespace = trimLeft s := dropWhile_idem _ s
    exact dropWhile_eq_self_of_prefix _ h1 (trimRight_isPrefixOf (trimLeft s))
  show trimRight (trimLeft (trim s)) = trim s
  rw [show trimLeft (trim s) = trim s from hleft]
  show ((trim s).reverse.dropWhile Char.isWhitespace).reverse = trim s
  have : (trim s).reverse.dropWhile Char.isWhitespace = (trim s).reverse := by
    show ((trimLeft s).reverse.dropWhile Char.isWhitespace).reverse.reverse.dropWhile Char.isWhitespace
      = ((trimLeft s).reverse.dropWhile Char.isWhitespace).reverse.reverse
    rw [List.reverse_reverse]
    exact dropWhile_idem _ _
  rw [this, List.reverse_reverse]

/-- C7: the adapter's `analyze` never hard-fails: when the underlying
parser produces no tree, the result is the empty analysis result — no
symbols, no imports, no calls — for every uri, rather than an error or a
partial result. -/
theorem c7_analyze_empty_on_parse_failure :
    ∀ uri : String,
      cpp_adapter.CppAdapter.analyze uri none = AnalysisResult.empty ∧
      (cpp_adapter.CppAdapter.analyze uri none).symbols = [] ∧
      (cpp_adapter.CppAdapter.analyze uri none).imports = [] ∧
      (cpp_adapter.CppAdapter.analyze uri none).calls = [] := by
  intro uri
  exact ⟨rfl, rfl, rfl, rfl⟩

/-- C3 counterexample: the claim demands the generated Python declaration
text be literally `sum = a + b`; the code generates `sum = a + b`
followed by a newline, and similarly the JavaScript insertion text is
`const sum = a + b;` followed by a newline, so the claim as stated fails
on the spec's own `console.log(a + b);` / `print(a + b)` example. -/
theorem c3_declaration_counterexample :
    extract_variable.extract ctxPy ("sum".toList) = .ok rPy ∧
    rPy.generated_code = some ("sum = a + b\n".toList) ∧
    "sum = a + b\n".toList ≠ "sum = a + b".toList ∧
    extract_variable.extract ctxJS ("sum".toList) = .ok rJS ∧
    rJS.edits.getLast? = some (TextEdit.insert { line := 0, column := 0 } ("const sum = a + b;\n".toList)) ∧
    "const sum = a + b;\n".toList ≠ "const sum = a + b;".toList := by
  refine ⟨by decide, by decide, by decide, by decide, by decide, by decide⟩

/-- C3 (amended): Extract Variable on `console.log(a + b);` (JavaScript)
with selection `a + b` and name `sum` yields exactly two edits — one
replacing the selection with `sum`, one inserting the declaration
`const sum = a + b;` followed by a terminating newline at the enclosing
statement's indentation (column 0) — and for the same expression in
Python, Rust and Go the generated declaration text is the literal
`sum = a + b`, `let sum = a + b;`, `sum := a + b` respectively, each
followed by a terminating newline. -/
theorem c3_declaration_texts :
    extract_variable.extract ctxJS ("sum".toList) = .ok rJS ∧
    rJS.edits.length = 2 ∧
    rJS.edits.getD 0 (TextEdit.delete (Range.point 0 0))
      = TextEdit.replace ctxJS.selection ("sum".toList) ∧
    rJS.edits.getD 1 (TextEdit.delete (Range.point 0 0))
      = TextEdit.insert { line := 0, column := 0 } ("const sum = a + b;\n".toList) ∧
    (ctxJS.indentation_at 0).length = 0 ∧
    extract_variable.generate_declaration ("sum".toList) ("a + b".toList) .Python []
      = "sum = a + b".toList ++ ['\n'] ∧
    extract_variable.generate_declaration ("sum".toList) ("a + b".toList) .Rust []
      = "let sum = a + b;".toList ++ ['\n'] ∧
    extract_variable.generate_declaration ("sum".toList) ("a + b".toList) .Go []
      = "sum := a + b".toList ++ ['\n'] ∧
    (extract_variable.extract ctxPy ("sum".toList)).toOption.bind RefactorResult.generated_code
      = some ("sum = a + b".toList ++ ['\n']) ∧
    (extract_variable.extract ctxRustLang ("sum".toList)).toOption.bind RefactorResult.generated_code
      = some ("let sum = a + b;".toList ++ ['\n']) ∧
    (extract_variable.extract ctxGoLang ("sum".toList)).toOption.bind RefactorResult.generated_code
      = some ("sum := a + b".toList ++ ['\n']) := by
  refine ⟨by decide, by decide, by decide, by decide, by decide, by decide,
    by decide, by decide, by decide, by decide, by decide⟩

/-- C6: for every supported language the expression-validity check
rejects `if `, `function foo` and `(a + b`; any context whose selection
trims to one of these makes `can_extract` return an error (never
`Ok(true)`); and in general `can_extract` errors on every selection that
is empty after trimming, and on every selection whose delimiters —
tracked outside string/char quotes with escape handling by
`has_balanced_delimiters` — are unbalanced. -/
theorem c6_validity_rejections :
    (∀ lang : LanguageId,
      analysis.is_valid_expression ("if ".toList) lang = false ∧
      analysis.is_valid_expression ("function foo".toList) lang = false ∧
      analysis.is_valid_expression ("(a + b".toList) lang = false) ∧
    (∀ ctx : RefactorContext,
      (trim ctx.selected_text = "if".toList ∨ trim ctx.selected_text = "function foo".toList
        ∨ trim ctx.selected_text = "(a + b".toList) →
      ∃ e, extract_variable.can_extract ctx = .error e) ∧
    (∀ ctx : RefactorContext, trim ctx.selected_text = [] →
      extract_variable.can_extract ctx = .error .NoExpression) ∧
    (∀ ctx : RefactorContext, trim ctx.selected_text ≠ [] →
      analysis.has_balanced_delimiters (trim ctx.selected_text) = false →
      extract_variable.can_extract ctx = .error (.CannotExtract "Selection is not a valid expression")) := by
  refine ⟨?_, ?_, ?_, ?_⟩
  · intro lang
    cases lang <;> exact ⟨by decide, by decide, by decide⟩
  · intro ctx h
    obtain ⟨src, uri, sel, lang⟩ := ctx
    refine ⟨.CannotExtract "Selection is not a valid expression", ?_⟩
    rcases h with h | h | h <;>
      · simp only [extract_variable.can_extract, h]
        cases lang <;> decide
  · intro ctx h
    simp [extract_variable.can_extract, h]
  · intro ctx h1 h2
    have hne : (trim ctx.selected_text).isEmpty = false := by
      cases hc : trim ctx.selected_text
      · exact absurd hc h1
      · rfl
    simp [extract_variable.can_extract, analysis.is_valid_expression, trim_trim, hne, h2]

/-- C6 witness: the general parts of `c6_validity_rejections` applied at
concrete contexts — a selection trimming to `if`, an empty selection, and
the unbalanced selection `(a + b`. -/
theorem c6_validity_witness :
    (∃ e, extract_variable.can_extract ctxIf = .error e) ∧
    extract_variable.can_extract ctxEmpty = .error .NoExpression ∧
    extract_variable.can_extract ctxParen
      = .error (.CannotExtract "Selection is not a valid expression") :=
  ⟨c6_validity_rejections.2.1 ctxIf (Or.inl (by decide)),
   c6_validity_rejections.2.2.1 ctxEmpty (by decide),
   c6_validity_rejections.2.2.2 ctxParen (by decide) (by decide)⟩

/-- C1 counterexample: on the spec's own JavaScript example context the
engine returns exactly two actions and none of them is (or mentions)
Safe Delete, so `get_actions` does not return an entry for each of the
three transformations. -/
theorem c1_actions_counterexample :
    (RefactorEngine.get_actions ctxJS).length = 2 ∧
    (∀ a ∈ RefactorEngine.get_actions ctxJS, a.kind ≠ RefactorKind.SafeDelete) ∧
    (∀ a ∈ RefactorEngine.get_actions ctxJS, a.id ≠ "safe-delete") := by
  refine ⟨by decide, by decide, by decide⟩

/-- C1 (amended): `get_actions` is a fixed lookup over only the two
extract transformations: every returned entry is Extract Variable or
Extract Method and a Safe Delete entry is never produced; for each of the
two transformations, a precondition check that fails with an error still
yields a listed entry, uniformly marked unavailable with the error's
display text as reason, and a passing check yields an available entry
(a check returning `Ok(false)` yields no entry).  Safe Delete, though
never listed, is still dispatched by `execute` under the id
`safe-delete`. -/
theorem c1_actions_amended :
    ∀ ctx : RefactorContext,
      (∀ a ∈ RefactorEngine.get_actions ctx,
        a.kind = RefactorKind.ExtractVariable ∨ a.kind = RefactorKind.ExtractMethod) ∧
      (∀ a ∈ RefactorEngine.get_actions ctx, a.kind ≠ RefactorKind.SafeDelete) ∧
      (∀ e, extract_variable.can_extract ctx = .error e →
        RefactorAction.unavailable "extract-variable" "Extract Variable"
          RefactorKind.ExtractVariable e.toDisplay ∈ RefactorEngine.get_actions ctx) ∧
      (extract_variable.can_extract ctx = .ok true →
        RefactorAction.available "extract-variable" "Extract Variable"
          RefactorKind.ExtractVariable ∈ RefactorEngine.get_actions ctx) ∧
      (∀ e, extract_method.can_extract ctx = .error e →
        RefactorAction.unavailable "extract-method" "Extract Method"
          RefactorKind.ExtractMethod e.toDisplay ∈ RefactorEngine.get_actions ctx) ∧
      (extract_method.can_extract ctx = .ok true →
        RefactorAction.available "extract-method" "Extract Method"
          RefactorKind.ExtractMethod ∈ RefactorEngine.get_actions ctx) ∧
      RefactorEngine.execute ctx RefactorEngine.sdActionId none = safe_delete.delete ctx := by
  intro ctx
  have hexec : RefactorEngine.execute ctx RefactorEngine.sdActionId none
      = safe_delete.delete ctx := by
    simp [RefactorEngine.execute, RefactorEngine.sdActionId, RefactorEngine.evActionId,
      RefactorEngine.emActionId]
  rcases hEV : extract_variable.can_extract ctx with eEV | bEV <;>
    rcases hEM : extract_method.can_extract ctx with eEM | bEM
  · refine ⟨?_, ?_, ?_, ?_, ?_, ?_, hexec⟩ <;>
      simp [RefactorEngine.get_actions, hEV, hEM, RefactorAction.available,
        RefactorAction.unavailable]
  · cases bEM <;>
      · refine ⟨?_, ?_, ?_, ?_, ?_, ?_, hexec⟩ <;>
          simp [RefactorEngine.get_actions, hEV, hEM, RefactorAction.available,
            RefactorAction.unavailable]
  · cases bEV <;>
      · refine ⟨?_, ?_, ?_, ?_, ?_, ?_, hexec⟩ <;>
          simp [RefactorEngine.get_actions, hEV, hEM, RefactorAction.available,
            RefactorAction.unavailable]
  · cases bEV <;> cases bEM <;>
      · refine ⟨?_, ?_, ?_, ?_, ?_, ?_, hexec⟩ <;>
          simp [RefactorEngine.get_actions, hEV, hEM, RefactorAction.available,
            RefactorAction.unavailable]

/-- C1 witness: on the empty-selection context both precondition checks
fail, and `c1_actions_amended` yields the two listed unavailable entries
carrying the `No expression at selection` reason. -/
theorem c1_actions_witness :
    RefactorAction.unavailable "extract-variable" "Extract Variable"
      RefactorKind.ExtractVariable (RefactorError.toDisplay .NoExpression)
      ∈ RefactorEngine.get_actions ctxEmpty ∧
    RefactorAction.unavailable "extract-method" "Extract Method"
      RefactorKind.ExtractMethod (RefactorError.toDisplay .NoExpression)
      ∈ RefactorEngine.get_actions ctxEmpty :=
  ⟨(c1_actions_amended ctxEmpty).2.2.1 .NoExpression (by decide),
   (c1_actions_amended ctxEmpty).2.2.2.2.1 .NoExpression (by decide)⟩

/-- The downward statement search never goes below line 0 nor above its
starting line. -/
theorem find_statement_line_le (lines : List Str) (lang : LanguageId) :
    ∀ i, analysis.find_statement_line lines lang i ≤ i := by
  intro i
  induction i with
  | zero => simp [analysis.find_statement_line]
  | succ n ih =>
    rw [analysis.find_statement_line]
    split
    · exact Nat.le_refl _
    · exact Nat.le_trans ih (Nat.le_succ n)

/-- The declaration insertion point never lies on a later line than the
expression's start line. -/
theorem insertion_point_line_le (source : Str) (sel : Range) (lang : LanguageId) :
    (analysis.find_declaration_insertion_point source sel lang).line ≤ sel.start.line := by
  rw [analysis.find_declaration_insertion_point]
  split
  · exact Nat.zero_le _
  · exact find_statement_line_le _ _ _

/-- C2 counterexample: on a selection that begins at column 0 of an
indented expression line, `extract` emits the replacement first (start
(0,0)) and then the declaration insertion at (0,2) — ascending, not
descending, start positions, and applying the replacement first
invalidates the insertion offset. -/
theorem c2_ordering_counterexample :
    extract_variable.extract ctxC2 ("sum".toList) = .ok rC2 ∧
    rC2.edits.map (fun e => e.range.start)
      = [{ line := 0, column := 0 }, { line := 0, column := 2 }] ∧
    ¬ List.Pairwise (fun a b => posLe b.range.start a.range.start = true) rC2.edits := by
  refine ⟨by decide, by decide, ?_⟩
  intro hp
  have h1 := (List.pairwise_cons.mp hp).1 (rC2.edits.getD 1 (TextEdit.delete (Range.point 0 0)))
    (by decide)
  exact absurd h1 (by decide)

/-- C2 (amended): a successful `extract` emits exactly two edits — the
selection replacement first, then the declaration insertion at the
computed insertion point, which never lies on a later line than the
selection start; whenever the insertion point does not exceed the
selection start (in particular whenever it is on an earlier line, or the
selection does not begin left of the statement line's indentation
column), the edit list is ordered by non-increasing start position.  The
claimed descending order fails only in the corner case of
`c2_ordering_counterexample`, where the insertion point falls to the
right of the selection start on the same line. -/
theorem c2_ordering_amended :
    ∀ (ctx : RefactorContext) (name : Str) (r : RefactorResult),
      extract_variable.extract ctx name = .ok r →
      ∃ decl,
        r.edits = [TextEdit.replace ctx.selection name,
          TextEdit.insert
            (analysis.find_declaration_insertion_point ctx.source ctx.selection ctx.language) decl] ∧
        (analysis.find_declaration_insertion_point ctx.source ctx.selection ctx.language).line
          ≤ ctx.selection.start.line ∧
        (posLe (analysis.find_declaration_insertion_point ctx.source ctx.selection ctx.language)
            ctx.selection.start = true →
          List.Pairwise (fun a b => posLe b.range.start a.range.start = true) r.edits) := by
  intro ctx name r h
  rcases hce : extract_variable.can_extract ctx with e | b
  · simp [extract_variable.extract, hce, bind, Except.bind] at h
  · simp [extract_variable.extract, hce, bind, Except.bind,
      extract_variable.sortByStartDescending, extract_variable.insertSortedBy] at h
    subst h
    refine ⟨extract_variable.generate_declaration name (trim ctx.selected_text) ctx.language
      (ctx.indentation_at (analysis.find_declaration_insertion_point ctx.source ctx.selection
        ctx.language).line), ?_, insertion_point_line_le _ _ _, ?_⟩
    · simp [RefactorResult.new, RefactorResult.with_generated_code]
    · intro hle
      simp only [RefactorResult.new, RefactorResult.with_generated_code]
      refine List.pairwise_cons.mpr ⟨?_, List.pairwise_singleton _ _⟩
      intro b hb
      simp only [List.mem_singleton] at hb
      subst hb
      simpa [TextEdit.insert, TextEdit.replace, Range.point] using hle

/-- C2 witness: `c2_ordering_amended` applied to the JavaScript example
context, whose insertion point (0,0) precedes the selection start. -/
theorem c2_ordering_witness :
    ∃ decl,
      rJS.edits = [TextEdit.replace ctxJS.selection ("sum".toList),
        TextEdit.insert
          (analysis.find_declaration_insertion_point ctxJS.source ctxJS.selection ctxJS.language) decl] ∧
      (analysis.find_declaration_insertion_point ctxJS.source ctxJS.selection ctxJS.language).line
        ≤ ctxJS.selection.start.line ∧
      (posLe (analysis.find_declaration_insertion_point ctxJS.source ctxJS.selection ctxJS.language)
          ctxJS.selection.start = true →
        List.Pairwise (fun a b => posLe b.range.start a.range.start = true) rJS.edits) :=
  c2_ordering_amended ctxJS ("sum".toList) rJS (by decide)

/-- C4 counterexample: a context where the selected text yields symbol
name `foo` with exactly one whole-word match in the document, a match
that does not overlap the selection — yet `analyze` deems deletion safe
(the `usages.len() <= 1` shortcut) and `delete` succeeds, against the
claim that deletion is safe exactly when no match falls outside the
selection. -/
theorem c4_safety_counterexample :
    safe_delete.find_usages ctxC4ce ("foo".toList)
      = [{ uri := "t.js", range := Range.from_coords 1 0 1 3 }] ∧
    Range.overlaps (Range.from_coords 1 0 1 3) ctxC4ce.selection = false ∧
    safe_delete.analyze ctxC4ce
      = .ok (safe_delete.SafeDeleteAnalysis.safe ("foo".toList) ctxC4ce.selection) ∧
    (safe_delete.SafeDeleteAnalysis.safe ("foo".toList) ctxC4ce.selection).can_delete = true ∧
    safe_delete.delete ctxC4ce = .ok rC4ce := by
  refine ⟨by decide, by decide, by decide, by decide, by decide⟩

/-- C4 (amended): for every context whose non-empty selection yields a
symbol name, safe delete deems deletion safe exactly when the document
holds at most one whole-word match of the name in total, or when every
match overlaps the original selection; otherwise `delete` fails with a
`SymbolInUse` error carrying every non-overlapping match location.  On
`let foo = 1;` + `console.log(foo);` with `foo`'s declaration selected,
analysis reports `can_delete = false` with exactly the one `console.log`
usage and deletion is refused. -/
theorem c4_safety_amended :
    (∀ (ctx : RefactorContext) (name : Str) (us outside : List Location),
      trim ctx.selected_text ≠ [] →
      safe_delete.extract_symbol_name (trim ctx.selected_text) = name →
      name ≠ [] →
      safe_delete.find_usages ctx name = us →
      us.filter (fun loc => !(loc.range.overlaps ctx.selection)) = outside →
      ((us.length ≤ 1 ∨ outside = []) →
        safe_delete.analyze ctx = .ok (safe_delete.SafeDeleteAnalysis.safe name ctx.selection)) ∧
      (1 < us.length → outside ≠ [] →
        safe_delete.analyze ctx = .ok { can_delete := false, symbol_name := name,
                                        symbol_range := ctx.selection, usages := outside,
                                        warnings := [] } ∧
        safe_delete.delete ctx = .error (.SymbolInUse outside))) ∧
    (safe_delete.analyze ctxFoo = .ok { can_delete := false, symbol_name := "foo".toList,
                                        symbol_range := ctxFoo.selection, usages := [fooUsage],
                                        warnings := [] } ∧
      safe_delete.delete ctxFoo = .error (.SymbolInUse [fooUsage]) ∧
      (safe_delete.find_usages ctxFoo ("foo".toList)).length = 2) := by
  constructor
  · intro ctx name us outside h1 hname hne hus houtside
    have hisE : (trim ctx.selected_text).isEmpty = false := by
      cases hc : trim ctx.selected_text
      · exact absurd hc h1
      · rfl
    have hnameE : name.isEmpty = false := by
      cases hc : name
      · exact absurd hc hne
      · rfl
    have hbody : safe_delete.analyze ctx =
        (if us.length ≤ 1 then
          .ok (safe_delete.SafeDeleteAnalysis.safe name ctx.selection)
        else if outside.isEmpty then
          .ok (safe_delete.SafeDeleteAnalysis.safe name ctx.selection)
        else .ok { can_delete := false, symbol_name := name,
                   symbol_range := ctx.selection, usages := outside, warnings := [] }) := by
      rw [safe_delete.analyze]
      simp only [hisE, Bool.false_eq_true, if_false, hname, hnameE, hus, houtside]
    constructor
    · intro hdisj
      rw [hbody]
      by_cases hl : us.length ≤ 1
      · simp [hl]
      · rcases hdisj with hd | hd
        · exact absurd hd hl
        · simp [hl, hd]
    · intro hgt hone
      have hl : ¬ us.length ≤ 1 := by omega
      have hoe : outside.isEmpty = false := by
        cases hc : outside
        · exact absurd hc hone
        · rfl
      have hA : safe_delete.analyze ctx = .ok { can_delete := false, symbol_name := name,
                                                 symbol_range := ctx.selection,
                                                 usages := outside, warnings := [] } := by
        rw [hbody]
        simp [hl, hoe]
      refine ⟨hA, ?_⟩
      simp [safe_delete.delete, hA, bind, Except.bind]
  · refine ⟨by decide, by decide, by decide⟩

/-- C4 witness: the general part of `c4_safety_amended` applied at the
concrete `ctxFoo` context, with its two whole-word matches of `foo` and
the single non-overlapping one. -/
theorem c4_safety_witness :
    safe_delete.analyze ctxFoo = .ok { can_delete := false, symbol_name := "foo".toList,
                                       symbol_range := ctxFoo.selection, usages := [fooUsage],
                                       warnings := [] } ∧
    safe_delete.delete ctxFoo = .error (.SymbolInUse [fooUsage]) :=
  (c4_safety_amended.1 ctxFoo ("foo".toList)
      [{ uri := "test.js", range := Range.from_coords 0 4 0 7 }, fooUsage] [fooUsage]
      (by decide) (by decide) (by decide) (by decide) (by decide)).2
    (by decide) (by decide)

/-- Every successful analysis carries the original selection as its
symbol range. -/
theorem analyze_symbol_range (ctx : RefactorContext) (a : safe_delete.SafeDeleteAnalysis) :
    safe_delete.analyze ctx = .ok a → a.symbol_range = ctx.selection := by
  intro h
  simp only [safe_delete.analyze] at h
  split at h
  · cases h
  · split at h
    · cases h
    · split at h
      · cases h
        rfl
      · split at h <;>
        · cases h
          rfl

/-- A successful analysis implies the selection starts on an existing
line: past the end of the document the selected text is empty and
`analyze` fails. -/
theorem analyze_start_line_lt (ctx : RefactorContext) (a : safe_delete.SafeDeleteAnalysis) :
    safe_delete.analyze ctx = .ok a →
    ctx.selection.start.line < (linesOf ctx.source).length := by
  intro h
  by_contra hge
  push_neg at hge
  have hsel : ctx.selected_text = [] := by
    simp [RefactorContext.selected_text, RefactorContext.text_in_range, hge]
  rw [safe_delete.analyze] at h
  simp [hsel, show trim ([] : Str) = [] from rfl] at h

/-- C5: on a successful safe delete the single emitted edit deletes: for
a single-line selection, the entire line — through the start of the next
line (consuming the trailing newline) when a next line exists, else
through the line's end — exactly when the line's trimmed content equals
the selected text, optionally followed by one trailing `;`, and only the
selection range otherwise; for a multi-line selection, from the start of
the selection's first line through the start of the line following the
selection's last line when that line exists, and only the selection range
when the selection reaches the file's last line. -/
theorem c5_deletion_extent :
    ∀ (ctx : RefactorContext) (r : RefactorResult),
      safe_delete.delete ctx = .ok r →
      ∃ a, safe_delete.analyze ctx = .ok a ∧ a.symbol_range = ctx.selection ∧
        a.can_delete = true ∧
        r.edits = [TextEdit.delete (safe_delete.find_deletion_range ctx a)] ∧
        ctx.selection.start.line < (linesOf ctx.source).length ∧
        (ctx.selection.start.line = ctx.selection.stop.line →
          ((trim ((linesOf ctx.source).getD ctx.selection.start.line [])
              = ctx.text_in_range ctx.selection
            ∨ (strEndsWith (trim ((linesOf ctx.source).getD ctx.selection.start.line [])) [';'] = true
               ∧ trim (trim ((linesOf ctx.source).getD ctx.selection.start.line [])).dropLast
                  = ctx.text_in_range ctx.selection)) →
            safe_delete.find_deletion_range ctx a =
              (if ctx.selection.start.line + 1 < (linesOf ctx.source).length then
                Range.from_coords ctx.selection.start.line 0 (ctx.selection.start.line + 1) 0
              else
                Range.from_coords ctx.selection.start.line 0 ctx.selection.start.line
                  ((linesOf ctx.source).getD ctx.selection.start.line []).length)) ∧
          (¬ (trim ((linesOf ctx.source).getD ctx.selection.start.line [])
              = ctx.text_in_range ctx.selection
            ∨ (strEndsWith (trim ((linesOf ctx.source).getD ctx.selection.start.line [])) [';'] = true
               ∧ trim (trim ((linesOf ctx.source).getD ctx.selection.start.line [])).dropLast
                  = ctx.text_in_range ctx.selection)) →
            safe_delete.find_deletion_range ctx a = ctx.selection)) ∧
        (ctx.selection.start.line ≠ ctx.selection.stop.line →
          (ctx.selection.stop.line + 1 < (linesOf ctx.source).length →
            safe_delete.find_deletion_range ctx a =
              Range.from_coords ctx.selection.start.line 0 (ctx.selection.stop.line + 1) 0) ∧
          (¬ (ctx.selection.stop.line + 1 < (linesOf ctx.source).length) →
            safe_delete.find_deletion_range ctx a = ctx.selection)) := by
  intro ctx r h
  rcases hA : safe_delete.analyze ctx with e | a
  · simp [safe_delete.delete, hA, bind, Except.bind] at h
  · have hsr := analyze_symbol_range ctx a hA
    have hlt := analyze_start_line_lt ctx a hA
    simp [safe_delete.delete, hA, bind, Except.bind] at h
    by_cases hcd : a.can_delete
    · simp [hcd] at h
      have hguard : ¬ (ctx.selection.start.line ≥ (linesOf ctx.source).length) := by omega
      refine ⟨a, rfl, hsr, hcd, ?_, hlt, ?_, ?_⟩
      · rw [← h]
        rfl
      · intro hsingle
        constructor
        · intro hcond
          simp only [safe_delete.find_deletion_range, hsr]
          rw [if_neg hguard, if_pos hsingle]
          split
          · rfl
          · next hfalse =>
            exfalso
            simp only [Bool.or_eq_true, Bool.and_eq_true, decide_eq_true_eq] at hfalse
            rcases hcond with hc | ⟨hc1, hc2⟩
            · exact hfalse (Or.inl hc)
            · exact hfalse (Or.inr ⟨hc1, hc2⟩)
        · intro hcond
          simp only [safe_delete.find_deletion_range, hsr]
          rw [if_neg hguard, if_pos hsingle]
          split
          · next htrue =>
            exfalso
            simp only [Bool.or_eq_true, Bool.and_eq_true, decide_eq_true_eq] at htrue
            exact hcond htrue
          · rfl
      · intro hmulti
        constructor
        · intro hnext
          simp only [safe_delete.find_deletion_range, hsr]
          rw [if_neg hguard, if_neg hmulti, if_pos hnext]
        · intro hnext
          simp only [safe_delete.find_deletion_range, hsr]
          rw [if_neg hguard, if_neg hmulti, if_neg hnext]
    · simp [hcd] at h

/-- C5 witness: `c5_deletion_extent` on the single line `foo;` with `foo`
selected — the whole line, which is the file's last, is deleted. -/
theorem c5_deletion_witness :
    ∃ a, safe_delete.analyze ctxC5 = .ok a ∧ a.symbol_range = ctxC5.selection ∧
      a.can_delete = true ∧
      rC5.edits = [TextEdit.delete (safe_delete.find_deletion_range ctxC5 a)] ∧
      ctxC5.selection.start.line < (linesOf ctxC5.source).length ∧
      (ctxC5.selection.start.line = ctxC5.selection.stop.line →
        ((trim ((linesOf ctxC5.source).getD ctxC5.selection.start.line [])
            = ctxC5.text_in_range ctxC5.selection
          ∨ (strEndsWith (trim ((linesOf ctxC5.source).getD ctxC5.selection.start.line [])) [';'] = true
             ∧ trim (trim ((linesOf ctxC5.source).getD ctxC5.selection.start.line [])).dropLast
                = ctxC5.text_in_range ctxC5.selection)) →
          safe_delete.find_deletion_range ctxC5 a =
            (if ctxC5.selection.start.line + 1 < (linesOf ctxC5.source).length then
              Range.from_coords ctxC5.selection.start.line 0 (ctxC5.selection.start.line + 1) 0
            else
              Range.from_coords ctxC5.selection.start.line 0 ctxC5.selection.start.line
                ((linesOf ctxC5.source).getD ctxC5.selection.start.line []).length)) ∧
        (¬ (trim ((linesOf ctxC5.source).getD ctxC5.selection.start.line [])
            = ctxC5.text_in_range ctxC5.selection
          ∨ (strEndsWith (trim ((linesOf ctxC5.source).getD ctxC5.selection.start.line [])) [';'] = true
             ∧ trim (trim ((linesOf ctxC5.source).getD ctxC5.selection.start.line [])).dropLast
                = ctxC5.text_in_range ctxC5.selection)) →
          safe_delete.find_deletion_range ctxC5 a = ctxC5.selection)) ∧
      (ctxC5.selection.start.line ≠ ctxC5.selection.stop.line →
        (ctxC5.selection.stop.line + 1 < (linesOf ctxC5.source).length →
          safe_delete.find_deletion_range ctxC5 a =
            Range.from_coords ctxC5.selection.start.line 0 (ctxC5.selection.stop.line + 1) 0) ∧
        (¬ (ctxC5.selection.stop.line + 1 < (linesOf ctxC5.source).length) →
          safe_delete.find_deletion_range ctxC5 a = ctxC5.selection)) :=
  c5_deletion_extent ctxC5 rC5 (by decide)

/-- Characterization of the multi-line copy loop: while within the
document it produces the slices of the existing selected lines joined by
single newlines, plus a trailing newline exactly when the selection's end
line lies past the last line. -/
theorem text_in_range_loop_eq (lines : List Str) (r : Range) :
    ∀ (k i : Nat), i ≤ r.stop.line → k = r.stop.line + 1 - i →
    text_in_range_loop lines r k i =
      (if lines.length ≤ i then ([] : Str) else
        joinWithNewlines
          ((List.range' i (min r.stop.line (lines.length - 1) + 1 - i)).map (sliceAt lines r))
        ++ (if lines.length ≤ r.stop.line then ['\n'] else [])) := by
  intro k
  induction k with
  | zero => intro i hi hk; omega
  | succ k ih =>
    intro i hi hk
    rw [text_in_range_loop]
    by_cases hlen : lines.length ≤ i
    · rw [if_pos (show i ≥ lines.length from hlen), if_pos hlen]
    · push_neg at hlen
      rw [if_neg (show ¬ i ≥ lines.length by omega),
        if_neg (show ¬ lines.length ≤ i by omega)]
      by_cases hstop : i = r.stop.line
      · have hk0 : k = 0 := by omega
        subst hk0
        rw [if_neg (show ¬ i < r.stop.line by omega)]
        have hmin : min r.stop.line (lines.length - 1) + 1 - i = 1 := by omega
        rw [hmin, show List.range' i 1 = [i] by simp, List.map_cons, List.map_nil]
        rw [if_neg (show ¬ lines.length ≤ r.stop.line by omega)]
        simp [joinWithNewlines, text_in_range_loop]
      · have hlt : i < r.stop.line := by omega
        rw [if_pos hlt]
        rw [ih (i + 1) (by omega) (by omega)]
        by_cases hnext : lines.length ≤ i + 1
        · have hstopge : lines.length ≤ r.stop.line := by omega
          rw [if_pos hnext, if_pos hstopge]
          have hmin : min r.stop.line (lines.length - 1) + 1 - i = 1 := by omega
          rw [hmin, show List.range' i 1 = [i] by simp, List.map_cons, List.map_nil]
          simp [joinWithNewlines]
        · push_neg at hnext
          rw [if_neg (show ¬ lines.length ≤ i + 1 by omega)]
          have hcnt' : min r.stop.line (lines.length - 1) + 1 - (i + 1) ≠ 0 := by omega
          obtain ⟨m, hm⟩ := Nat.exists_eq_succ_of_ne_zero hcnt'
          have hcnt : min r.stop.line (lines.length - 1) + 1 - i = m + 2 := by omega
          rw [hm, hcnt]
          rw [List.range'_succ, List.map_cons]
          rw [List.range'_succ, List.map_cons]
          rw [List.range'_succ, List.map_cons]
          simp only [joinWithNewlines]
          simp [List.append_assoc]

/-- C9 counterexample: on the two-line document `console\nlog`, a
selection starting AT the document's last line (line 1 of 2) yields that
line's text, not the empty string the claim demands for a start line "at
or past the document's last line"; and a multi-line selection whose end
line lies past the document is not the plain newline-join of the per-line
slices — it carries a trailing newline. -/
theorem c9_text_in_range_counterexample :
    (linesOf ctxTwoLines.source).length = 2 ∧
    ctxTwoLines.text_in_range (Range.from_coords 1 0 1 3) = "log".toList ∧
    "log".toList ≠ ([] : Str) ∧
    ctxTwoLines.text_in_range (Range.from_coords 0 0 5 0) = "console\nlog\n".toList ∧
    joinWithNewlines ["console".toList, "log".toList] = "console\nlog".toList ∧
    "console\nlog\n".toList ≠ "console\nlog".toList := by
  refine ⟨by decide, by decide, by decide, by decide, by decide, by decide⟩

/-- C9 (amended): for every source and selection with start ≤ end,
`text_in_range` is total: it yields the empty string exactly on the guard
`start line ≥ number of lines` (strictly past the last line); a
single-line in-bounds selection yields the line slice with both columns
clamped to the line length; a multi-line in-bounds selection yields the
per-line slices of the existing selected lines joined by single newlines,
with a trailing newline exactly when the end line lies past the last
line. -/
theorem c9_text_in_range_amended :
    ∀ (ctx : RefactorContext) (r : Range),
      posLe r.start r.stop = true →
      ((linesOf ctx.source).length ≤ r.start.line → ctx.text_in_range r = []) ∧
      (r.start.line < (linesOf ctx.source).length → r.start.line = r.stop.line →
        ctx.text_in_range r =
          lineSlice ((linesOf ctx.source).getD r.start.line [])
            (min r.start.column ((linesOf ctx.source).getD r.start.line []).length)
            (min r.stop.column ((linesOf ctx.source).getD r.start.line []).length)) ∧
      (r.start.line < (linesOf ctx.source).length → r.start.line < r.stop.line →
        ctx.text_in_range r =
          joinWithNewlines
            ((List.range' r.start.line
                (min r.stop.line ((linesOf ctx.source).length - 1) + 1 - r.start.line)).map
              (sliceAt (linesOf ctx.source) r))
          ++ (if (linesOf ctx.source).length ≤ r.stop.line then ['\n'] else [])) := by
  intro ctx r _
  refine ⟨?_, ?_, ?_⟩
  · intro h
    simp [RefactorContext.text_in_range, h]
  · intro h1 h2
    rw [RefactorContext.text_in_range]
    rw [if_neg (show ¬ r.start.line ≥ (linesOf ctx.source).length by omega), if_pos h2]
  · intro h1 h2
    rw [RefactorContext.text_in_range]
    rw [if_neg (show ¬ r.start.line ≥ (linesOf ctx.source).length by omega),
      if_neg (show ¬ r.start.line = r.stop.line by omega)]
    rw [text_in_range_loop_eq (linesOf ctx.source) r _ r.start.line (by omega) rfl]
    rw [if_neg (show ¬ (linesOf ctx.source).length ≤ r.start.line by omega)]

/-- C9 witness: `c9_text_in_range_amended` on the two-line document with
the past-the-end multi-line selection and with a single-line selection. -/
theorem c9_text_in_range_witness :
    ctxTwoLines.text_in_range (Range.from_coords 0 0 5 0) =
      joinWithNewlines
        ((List.range' (Range.from_coords 0 0 5 0).start.line
            (min (Range.from_coords 0 0 5 0).stop.line ((linesOf ctxTwoLines.source).length - 1)
              + 1 - (Range.from_coords 0 0 5 0).start.line)).map
          (sliceAt (linesOf ctxTwoLines.source) (Range.from_coords 0 0 5 0)))
      ++ (if (linesOf ctxTwoLines.source).length ≤ (Range.from_coords 0 0 5 0).stop.line
          then ['\n'] else []) ∧
    ctxTwoLines.text_in_range (Range.from_coords 1 1 1 9) =
      lineSlice ((linesOf ctxTwoLines.source).getD 1 [])
        (min 1 ((linesOf ctxTwoLines.source).getD 1 []).length)
        (min 9 ((linesOf ctxTwoLines.source).getD 1 []).length) :=
  ⟨(c9_text_in_range_amended ctxTwoLines (Range.from_coords 0 0 5 0) (by decide)).2.2
      (by decide) (by decide),
   (c9_text_in_range_amended ctxTwoLines (Range.from_coords 1 1 1 9) (by decide)).2.1
      (by decide) (by decide)⟩

/-- The empty delta is a left identity of delta concatenation. -/
theorem AnalysisResult.empty_app (a : AnalysisResult) : AnalysisResult.empty.app a = a := by
  cases a
  simp [AnalysisResult.app, AnalysisResult.empty]

/-- One step of the current-visibility fold. -/
theorem visAfter_cons (d : Visibility) (c : Node) (cs : List Node) :
    cpp_adapter.visAfter d (c :: cs) =
      cpp_adapter.visAfter
        (if c.kind = "access_specifier" then cpp_adapter.access_specifier_visibility c.text else d)
        cs := rfl

/-- Delta concatenation is associative. -/
theorem AnalysisResult.app_assoc (a b c : AnalysisResult) :
    (a.app b).app c = a.app (b.app c) := by
  cases a; cases b; cases c
  simp [AnalysisResult.app]

/-- The empty delta is a right identity of delta concatenation. -/
theorem AnalysisResult.app_empty (a : AnalysisResult) : a.app AnalysisResult.empty = a := by
  cases a
  simp [AnalysisResult.app, AnalysisResult.empty]

/-- The member loop of `analyze_field_declaration_list` processes members
in document order: splitting the member list anywhere, the suffix is
processed under the visibility obtained by folding the access specifiers
of the prefix over the incoming default — an explicit access specifier
changes the current visibility for all subsequent members until the next
one. -/
theorem analyze_fdl_children_append :
    ∀ (cs₁ cs₂ : List Node) (sc : ScopeCtx) (d : Visibility),
      cpp_adapter.analyze_fdl_children (cs₁ ++ cs₂) sc d =
        (cpp_adapter.analyze_fdl_children cs₁ sc d).app
          (cpp_adapter.analyze_fdl_children cs₂ sc (cpp_adapter.visAfter d cs₁)) := by
  intro cs₁
  induction cs₁ with
  | nil =>
    intro cs₂ sc d
    rw [List.nil_append, show cpp_adapter.analyze_fdl_children [] sc d = AnalysisResult.empty
      from rfl, AnalysisResult.empty_app]
    rfl
  | cons c cs₁ ih =>
    intro cs₂ sc d
    cases c with
    | mk ck ct cf cr ccs =>
      by_cases hacc : ck = "access_specifier"
      · rw [List.cons_append, cpp_adapter.analyze_fdl_children, if_pos hacc, ih,
          visAfter_cons]
        rw [cpp_adapter.analyze_fdl_children]
        simp [Node.kind, Node.text, hacc]
      · rw [List.cons_append, cpp_adapter.analyze_fdl_children, if_neg hacc, ih,
          visAfter_cons]
        rw [cpp_adapter.analyze_fdl_children]
        simp only [Node.kind, Node.text]
        rw [if_neg hacc, if_neg hacc, AnalysisResult.app_assoc]

/-- A single member-list child evaluates to its per-child delta: an
access specifier contributes nothing, any other child contributes the
field, method or recursive delta under the current visibility. -/
theorem analyze_fdl_children_singleton :
    ∀ (c : Node) (sc : ScopeCtx) (v : Visibility),
      (c.kind = "access_specifier" →
        cpp_adapter.analyze_fdl_children [c] sc v = AnalysisResult.empty) ∧
      (c.kind ≠ "access_specifier" →
        cpp_adapter.analyze_fdl_children [c] sc v = cpp_adapter.fdl_child_delta c sc v) := by
  intro c sc v
  cases c with
  | mk ck ct cf cr ccs =>
    constructor
    · intro hacc
      simp only [Node.kind] at hacc
      rw [cpp_adapter.analyze_fdl_children, if_pos hacc]
      rfl
    · intro hacc
      simp only [Node.kind] at hacc
      rw [cpp_adapter.analyze_fdl_children, if_neg hacc]
      rw [show cpp_adapter.analyze_fdl_children [] sc v = AnalysisResult.empty from rfl,
        AnalysisResult.app_empty]
      simp only [cpp_adapter.fdl_child_delta, Node.kind, Node.children,
        cpp_adapter.analyze_method_with_visibility, if_neg hacc]

/-- Every symbol emitted directly for a field declaration carries the
supplied visibility, exported exactly when it is public. -/
theorem analyze_field_visibility :
    ∀ (c : Node) (sc : ScopeCtx) (v : Visibility) (s : IndexSymbol),
      s ∈ (cpp_adapter.analyze_field_with_visibility c sc v).symbols →
      s.visibility = v ∧ (s.exported = true ↔ v = Visibility.Public) := by
  intro c sc v s hs
  rw [cpp_adapter.analyze_field_with_visibility] at hs
  rcases hffn : cpp_adapter.find_first_named_of_kinds c cpp_adapter.memberNameKinds with _ | nn
  · rw [hffn] at hs
    simp [AnalysisResult.empty] at hs
  · rw [hffn] at hs
    simp only [List.mem_singleton] at hs
    subst hs
    exact ⟨rfl, by simp⟩

/-- The method symbol built by `method_symbol` carries the supplied
visibility, exported exactly when it is public. -/
theorem method_symbol_visibility :
    ∀ (n : Node) (sc : ScopeCtx) (v : Visibility) (sym : IndexSymbol) (nm : Str),
      cpp_adapter.method_symbol n sc v = some (sym, nm) →
      sym.visibility = v ∧ (sym.exported = true ↔ v = Visibility.Public) := by
  intro n sc v sym nm h
  rw [cpp_adapter.method_symbol] at h
  split at h
  · split at h
    · simp only [Option.some.injEq, Prod.mk.injEq] at h
      obtain ⟨hsym, _⟩ := h
      subst hsym
      exact ⟨rfl, by simp⟩
    · cases h
  · cases h

/-- The first symbol emitted for a method member (the method's own
symbol) carries the supplied visibility, exported exactly when it is
public. -/
theorem analyze_method_head_visibility :
    ∀ (c : Node) (sc : ScopeCtx) (v : Visibility) (s : IndexSymbol),
      (cpp_adapter.analyze_method_with_visibility c sc v).symbols.head? = some s →
      s.visibility = v ∧ (s.exported = true ↔ v = Visibility.Public) := by
  intro c sc v s h
  rw [cpp_adapter.analyze_method_with_visibility] at h
  rcases hms : cpp_adapter.method_symbol c sc v with _ | p
  · rw [hms] at h
    simp [AnalysisResult.empty] at h
  · obtain ⟨sym, nm⟩ := p
    rw [hms] at h
    simp only [cpp_adapter.symbolDelta, AnalysisResult.app, List.singleton_append,
      List.head?_cons, Option.some.injEq] at h
    subst h
    exact method_symbol_visibility c sc v sym nm hms

/-- A named class or struct analyzes its body under the grammar default
visibility: public for `struct_specifier`, private otherwise. -/
theorem analyze_class_default_visibility :
    ∀ (n : Node) (sc : ScopeCtx) (sym : IndexSymbol) (nm : Str),
      cpp_adapter.class_or_struct_symbol n sc = some (sym, nm) →
      cpp_adapter.analyze_class_or_struct n sc =
        (cpp_adapter.symbolDelta sym).app
          (cpp_adapter.analyze_class_body_child n.children (sc.push nm)
            (if n.kind = "struct_specifier" then Visibility.Public else Visibility.Private)) := by
  intro n sc sym nm h
  rw [cpp_adapter.analyze_class_or_struct, h]
  simp [cpp_adapter.default_visibility]

/-- A `field_declaration_list` body is handed to the member loop
unchanged. -/
theorem analyze_class_body_fdl :
    ∀ (body : Node) (sc : ScopeCtx) (d : Visibility),
      body.kind = "field_declaration_list" →
      cpp_adapter.analyze_class_body body sc d =
        cpp_adapter.analyze_fdl_children body.children sc d := by
  intro body sc d h
  cases body with
  | mk k t f r cs =>
    simp only [Node.kind] at h
    rw [cpp_adapter.analyze_class_body, if_pos h]
    rfl

/-- C8: members of a class or struct body are processed in document order
under a current-visibility value — splitting the member list anywhere,
the suffix is processed under the fold of the prefix's access specifiers
over the incoming default, and a single member child contributes exactly
its delta under the current visibility (an access specifier contributing
nothing but the update); every field symbol and every method's own symbol
carries the visibility supplied at its position and is exported exactly
when that visibility is public; and a named class or struct analyzes its
`field_declaration_list` body starting from the grammar default — public
for a struct body, private for a class body. -/
theorem c8_visibility_tracking :
    (∀ (cs₁ cs₂ : List Node) (sc : ScopeCtx) (d : Visibility),
      cpp_adapter.analyze_fdl_children (cs₁ ++ cs₂) sc d =
        (cpp_adapter.analyze_fdl_children cs₁ sc d).app
          (cpp_adapter.analyze_fdl_children cs₂ sc (cpp_adapter.visAfter d cs₁))) ∧
    (∀ (c : Node) (sc : ScopeCtx) (v : Visibility),
      (c.kind = "access_specifier" →
        cpp_adapter.analyze_fdl_children [c] sc v = AnalysisResult.empty) ∧
      (c.kind ≠ "access_specifier" →
        cpp_adapter.analyze_fdl_children [c] sc v = cpp_adapter.fdl_child_delta c sc v)) ∧
    (∀ (c : Node) (sc : ScopeCtx) (v : Visibility) (s : IndexSymbol),
      s ∈ (cpp_adapter.analyze_field_with_visibility c sc v).symbols →
      s.visibility = v ∧ (s.exported = true ↔ v = Visibility.Public)) ∧
    (∀ (c : Node) (sc : ScopeCtx) (v : Visibility) (s : IndexSymbol),
      (cpp_adapter.analyze_method_with_visibility c sc v).symbols.head? = some s →
      s.visibility = v ∧ (s.exported = true ↔ v = Visibility.Public)) ∧
    (∀ (n : Node) (sc : ScopeCtx) (sym : IndexSymbol) (nm : Str),
      cpp_adapter.class_or_struct_symbol n sc = some (sym, nm) →
      cpp_adapter.analyze_class_or_struct n sc =
        (cpp_adapter.symbolDelta sym).app
          (cpp_adapter.analyze_class_body_child n.children (sc.push nm)
            (if n.kind = "struct_specifier" then Visibility.Public else Visibility.Private))) ∧
    (∀ (body : Node) (sc : ScopeCtx) (d : Visibility),
      body.kind = "field_declaration_list" →
      cpp_adapter.analyze_class_body body sc d =
        cpp_adapter.analyze_fdl_children body.children sc d) :=
  ⟨analyze_fdl_children_append, analyze_fdl_children_singleton, analyze_field_visibility,
   analyze_method_head_visibility, analyze_class_default_visibility, analyze_class_body_fdl⟩

/-- C8 witness: `c8_visibility_tracking` on a concrete member list
`public: int x; private: int y; void m() {}` of class `K` — the access
specifier contributes nothing, the field under public visibility is
exported, the method under private visibility is not, and the class body
starts from the private default. -/
theorem c8_visibility_witness :
    cpp_adapter.analyze_fdl_children [accessPub] scC .Private = AnalysisResult.empty ∧
    cpp_adapter.analyze_fdl_children [fieldNode] scC .Public
      = cpp_adapter.fdl_child_delta fieldNode scC .Public ∧
    (fieldSymX.visibility = Visibility.Public
      ∧ (fieldSymX.exported = true ↔ Visibility.Public = Visibility.Public)) ∧
    (methodSymM.visibility = Visibility.Private
      ∧ (methodSymM.exported = true ↔ Visibility.Private = Visibility.Public)) ∧
    cpp_adapter.analyze_class_or_struct classNode scC =
      (cpp_adapter.symbolDelta classSymK).app
        (cpp_adapter.analyze_class_body_child classNode.children (scC.push ("K".toList))
          (if classNode.kind = "struct_specifier" then Visibility.Public else Visibility.Private)) ∧
    cpp_adapter.analyze_class_body fdlNode scC .Private
      = cpp_adapter.analyze_fdl_children fdlNode.children scC .Private :=
  ⟨(c8_visibility_tracking.2.1 accessPub scC .Private).1 (by decide),
   (c8_visibility_tracking.2.1 fieldNode scC .Public).2 (by decide),
   c8_visibility_tracking.2.2.1 fieldNode scC .Public fieldSymX (by decide),
   c8_visibility_tracking.2.2.2.1 methodNode scC .Private methodSymM (by decide),
   c8_visibility_tracking.2.2.2.2.1 classNode scC classSymK ("K".toList) (by decide),
   c8_visibility_tracking.2.2.2.2.2 fdlNode scC .Private (by decide)⟩

namespace unused

/-- Registering a definition never touches the ignore patterns. -/
theorem register_definition_patterns (d : UnusedDetector) (n : Str) (r : Range)
    (k : SymbolKind) :
    (d.register_definition n r k).ignore_patterns = d.ignore_patterns := by
  rw [UnusedDetector.register_definition]
  split
  · rfl
  · split <;> rfl

/-- Registering a definition never touches the reference set. -/
theorem register_definition_references (d : UnusedDetector) (n : Str) (r : Range)
    (k : SymbolKind) :
    (d.register_definition n r k).references = d.references := by
  rw [UnusedDetector.register_definition]
  split
  · rfl
  · split <;> rfl

/-- Collecting definitions never touches the ignore patterns. -/
theorem collect_definitions_patterns :
    ∀ (d : UnusedDetector) (syms : List CoreSymbol),
      (collect_definitions d syms).ignore_patterns = d.ignore_patterns := by
  intro d syms
  induction d, syms using collect_definitions.induct with
  | case1 d => rw [collect_definitions]
  | case2 d name kind _range selection_range _detail children rest ih1 ih2 =>
    rw [collect_definitions, ih2, ih1, register_definition_patterns]

/-- Collecting definitions never touches the reference set. -/
theorem collect_definitions_references :
    ∀ (d : UnusedDetector) (syms : List CoreSymbol),
      (collect_definitions d syms).references = d.references := by
  intro d syms
  induction d, syms using collect_definitions.induct with
  | case1 d => rw [collect_definitions]
  | case2 d name kind _range selection_range _detail children rest ih1 ih2 =>
    rw [collect_definitions, ih2, ih1, register_definition_references]

/-- Marking a symbol used never touches patterns or references. -/
theorem mark_used_patterns (d : UnusedDetector) (n : Str) :
    (d.mark_used n).ignore_patterns = d.ignore_patterns := rfl

/-- One reference-collection step never touches the ignore patterns. -/
theorem collect_references_step_patterns (src : Str) (d : UnusedDetector) (w : Str) :
    (collect_references_step src d w).ignore_patterns = d.ignore_patterns := by
  rw [collect_references_step]
  split
  · split
    · split <;> rfl
    · rfl
  · rfl

/-- The word fold of reference collection never touches the patterns. -/
theorem collect_references_fold_patterns (src : Str) :
    ∀ (ws : List Str) (d : UnusedDetector),
      (ws.foldl (collect_references_step src) d).ignore_patterns = d.ignore_patterns := by
  intro ws
  induction ws with
  | nil => intro d; rfl
  | cons w ws ih =>
    intro d
    rw [List.foldl_cons, ih, collect_references_step_patterns]

/-- One reference-collection step never touches the reference set. -/
theorem collect_references_step_references (src : Str) (d : UnusedDetector) (w : Str) :
    (collect_references_step src d w).references = d.references := by
  rw [collect_references_step]
  split
  · split
    · split <;> rfl
    · rfl
  · rfl

/-- The word fold of reference collection never touches the references. -/
theorem collect_references_fold_references (src : Str) :
    ∀ (ws : List Str) (d : UnusedDetector),
      (ws.foldl (collect_references_step src) d).references = d.references := by
  intro ws
  induction ws with
  | nil => intro d; rfl
  | cons w ws ih =>
    intro d
    rw [List.foldl_cons, ih, collect_references_step_references]

/-- `should_ignore` only reads the ignore patterns. -/
theorem should_ignore_congr (d d' : UnusedDetector) (n : Str)
    (h : d.ignore_patterns = d'.ignore_patterns) :
    d.should_ignore n = d'.should_ignore n := by
  simp only [UnusedDetector.should_ignore, h]

/-- Map-entry provenance through `insertEntry`. -/
theorem mem_insertEntry {m : List (Str × SymEntry)} {k : Str} {e : SymEntry}
    {k' : Str} {e' : SymEntry} (h : (k', e') ∈ insertEntry m k e) :
    (k' = k ∧ e' = e) ∨ (k', e') ∈ m := by
  rw [insertEntry] at h
  split at h
  · rcases List.mem_map.mp h with ⟨p, hp, heq⟩
    by_cases hpk : p.1 = k
    · rw [if_pos hpk] at heq
      left
      exact ⟨(congrArg Prod.fst heq).symm, (congrArg Prod.snd heq).symm⟩
    · rw [if_neg hpk] at heq
      right
      rw [← heq]
      exact hp
  · rcases List.mem_append.mp h with h | h
    · right; exact h
    · left
      simp only [List.mem_singleton, Prod.mk.injEq] at h
      exact h

/-- Map-entry provenance through `register_definition`: a new entry's key
is never an ignored name. -/
theorem mem_register_definition {d : UnusedDetector} {n : Str} {r : Range} {k : SymbolKind}
    {key : Str} {e : SymEntry}
    (h : (key, e) ∈ (d.register_definition n r k).defined_symbols) :
    (key, e) ∈ d.defined_symbols ∨ d.should_ignore key = false := by
  rw [UnusedDetector.register_definition] at h
  split at h
  · left; exact h
  · next hig =>
    split at h
    · rcases mem_insertEntry h with ⟨hk, _⟩ | hm
      · right
        subst hk
        simpa using hig
      · left; exact hm
    · left; exact h

/-- Map-entry provenance through `collect_definitions`: every key of the
resulting map was already present or is a non-ignored name. -/
theorem mem_collect_definitions :
    ∀ (d : UnusedDetector) (syms : List CoreSymbol) (key : Str) (e : SymEntry),
      (key, e) ∈ (collect_definitions d syms).defined_symbols →
      (∃ e', (key, e') ∈ d.defined_symbols) ∨ d.should_ignore key = false := by
  intro d syms
  induction d, syms using collect_definitions.induct with
  | case1 d =>
    intro key e h
    rw [collect_definitions] at h
    left; exact ⟨e, h⟩
  | case2 d name kind _range selection_range _detail children rest ih1 ih2 =>
    intro key e h
    rw [collect_definitions] at h
    rcases ih2 key e h with ⟨e2, h2⟩ | h2
    · rcases ih1 key e2 h2 with ⟨e1, h1⟩ | h1
      · rcases mem_register_definition h1 with hm | hig
        · left; exact ⟨e1, hm⟩
        · right; exact hig
      · right
        rw [should_ignore_congr _ d key (register_definition_patterns d name selection_range kind)]
          at h1
        exact h1
    · right
      rw [should_ignore_congr _ d key (by
        rw [collect_definitions_patterns, register_definition_patterns])] at h2
      exact h2

/-- Key provenance through `mark_used`. -/
theorem mem_mark_used {d : UnusedDetector} {n : Str} {key : Str} {e : SymEntry}
    (h : (key, e) ∈ (d.mark_used n).defined_symbols) :
    ∃ e', (key, e') ∈ d.defined_symbols := by
  rw [UnusedDetector.mark_used] at h
  rcases List.mem_map.mp h with ⟨p, hp, heq⟩
  obtain ⟨pk, pe⟩ := p
  by_cases hpk : pk = n
  · rw [if_pos hpk] at heq
    have hk : pk = key := congrArg Prod.fst heq
    subst hk
    exact ⟨pe, hp⟩
  · rw [if_neg hpk] at heq
    have hk : pk = key := congrArg Prod.fst heq
    subst hk
    exact ⟨pe, hp⟩

/-- Key provenance through one reference-collection step. -/
theorem mem_collect_references_step {src : Str} {d : UnusedDetector} {w : Str}
    {key : Str} {e : SymEntry}
    (h : (key, e) ∈ (collect_references_step src d w).defined_symbols) :
    ∃ e', (key, e') ∈ d.defined_symbols := by
  rw [collect_references_step] at h
  split at h
  · split at h
    · split at h
      · exact mem_mark_used h
      · exact ⟨e, h⟩
    · exact ⟨e, h⟩
  · exact ⟨e, h⟩

/-- Key provenance through the word fold. -/
theorem mem_collect_references_fold (src : Str) :
    ∀ (ws : List Str) (d : UnusedDetector) (key : Str) (e : SymEntry),
      (key, e) ∈ (ws.foldl (collect_references_step src) d).defined_symbols →
      ∃ e', (key, e') ∈ d.defined_symbols := by
  intro ws
  induction ws with
  | nil =>
    intro d key e h
    exact ⟨e, h⟩
  | cons w ws ih =>
    intro d key e h
    rw [List.foldl_cons] at h
    rcases ih _ key e h with ⟨e', h'⟩
    exact mem_collect_references_step h'

/-- A present key makes `containsKey` true. -/
theorem containsKey_of_mem {d : UnusedDetector} {key : Str} {e : SymEntry}
    (h : (key, e) ∈ d.defined_symbols) : d.containsKey key = true := by
  rw [UnusedDetector.containsKey, List.any_eq_true]
  exact ⟨(key, e), h, by simp⟩

/-- The key test ignores the flag rewriting of `mark_used`. -/
theorem any_fst_map_mark (n k : Str) :
    ∀ (l : List (Str × SymEntry)),
      (l.map (fun p => if p.1 = n then (p.1, { p.2 with used := true }) else p)).any
        (fun p => p.1 = k)
      = l.any (fun p => p.1 = k) := by
  intro l
  induction l with
  | nil => rfl
  | cons p ps ih =>
    obtain ⟨pk, pe⟩ := p
    by_cases hpk : pk = n <;> simp [hpk, ih]

/-- `mark_used` preserves key membership tests. -/
theorem containsKey_mark_used (d : UnusedDetector) (n k : Str) :
    (d.mark_used n).containsKey k = d.containsKey k := by
  rw [UnusedDetector.containsKey, UnusedDetector.mark_used, UnusedDetector.containsKey]
  exact any_fst_map_mark n k d.defined_symbols

/-- One reference-collection step preserves key membership tests. -/
theorem containsKey_step (src : Str) (d : UnusedDetector) (w k : Str) :
    (collect_references_step src d w).containsKey k = d.containsKey k := by
  rw [collect_references_step]
  split
  · split
    · split
      · exact containsKey_mark_used d w k
      · rfl
    · rfl
  · rfl

/-- `mark_used` marks every entry of its key used. -/
theorem usedAt_mark_used_self (d : UnusedDetector) (k : Str) :
    ∀ e, (k, e) ∈ (d.mark_used k).defined_symbols → e.used = true := by
  intro e h
  rw [UnusedDetector.mark_used] at h
  rcases List.mem_map.mp h with ⟨p, _, heq⟩
  obtain ⟨pk, pe⟩ := p
  by_cases hpk : pk = k
  · rw [if_pos hpk] at heq
    have he : ({ pe with used := true } : SymEntry) = e := congrArg Prod.snd heq
    rw [← he]
  · rw [if_neg hpk] at heq
    exact absurd (congrArg Prod.fst heq) hpk

/-- `mark_used` never unsets a used flag. -/
theorem usedAt_mark_used_preserve (d : UnusedDetector) (k n : Str)
    (h : ∀ e, (k, e) ∈ d.defined_symbols → e.used = true) :
    ∀ e, (k, e) ∈ (d.mark_used n).defined_symbols → e.used = true := by
  intro e he
  rw [UnusedDetector.mark_used] at he
  rcases List.mem_map.mp he with ⟨p, hp, heq⟩
  obtain ⟨pk, pe⟩ := p
  by_cases hpk : pk = n
  · rw [if_pos hpk] at heq
    have : ({ pe with used := true } : SymEntry) = e := congrArg Prod.snd heq
    rw [← this]
  · rw [if_neg hpk] at heq
    have hk : pk = k := congrArg Prod.fst heq
    have he' : pe = e := congrArg Prod.snd heq
    subst hk
    rw [← he']
    exact h pe hp

/-- One reference-collection step never unsets a used flag. -/
theorem usedAt_step_preserve (src : Str) (d : UnusedDetector) (k w : Str)
    (h : ∀ e, (k, e) ∈ d.defined_symbols → e.used = true) :
    ∀ e, (k, e) ∈ (collect_references_step src d w).defined_symbols → e.used = true := by
  intro e he
  rw [collect_references_step] at he
  split at he
  · split at he
    · split at he
      · exact usedAt_mark_used_preserve d k w h e he
      · exact h e he
    · exact h e he
  · exact h e he

/-- The word fold never unsets a used flag. -/
theorem usedAt_fold_preserve (src : Str) :
    ∀ (ws : List Str) (d : UnusedDetector) (k : Str),
      (∀ e, (k, e) ∈ d.defined_symbols → e.used = true) →
      ∀ e, (k, e) ∈ (ws.foldl (collect_references_step src) d).defined_symbols →
        e.used = true := by
  intro ws
  induction ws with
  | nil =>
    intro d k h e he
    exact h e he
  | cons w ws ih =>
    intro d k h e he
    rw [List.foldl_cons] at he
    exact ih _ k (usedAt_step_preserve src d k w h) e he

/-- If a defined, non-ignored name occurs among the scanned words and its
raw substring count in the source exceeds one, every entry of that name
is marked used by the word fold. -/
theorem usedAt_after_words (src : Str) :
    ∀ (ws : List Str) (d : UnusedDetector) (k : Str),
      k ∈ ws → k ≠ [] → d.should_ignore k = false → d.containsKey k = true →
      countMatches src k > 1 →
      ∀ e, (k, e) ∈ (ws.foldl (collect_references_step src) d).defined_symbols →
        e.used = true := by
  intro ws
  induction ws with
  | nil =>
    intro d k hk
    exact absurd hk (List.not_mem_nil k)
  | cons w ws ih =>
    intro d k hk hne hig hck hcnt e he
    rw [List.foldl_cons] at he
    by_cases hw : w = k
    · subst hw
      have hcond : (!w.isEmpty && !d.should_ignore w) = true := by
        cases hwc : w
        · exact absurd hwc hne
        · rw [← hwc, hig]
          rw [hwc]
          rfl
      have hstep : collect_references_step src d w = d.mark_used w := by
        rw [collect_references_step, if_pos hcond, if_pos hck, if_pos hcnt]
      rw [hstep] at he
      exact usedAt_fold_preserve src ws (d.mark_used w) w
        (usedAt_mark_used_self d w) e he
    · have hk' : k ∈ ws := by
        rcases List.mem_cons.mp hk with hk | hk
        · exact absurd hk.symm hw
        · exact hk
      have hig' : (collect_references_step src d w).should_ignore k = false := by
        rw [should_ignore_congr _ d k (collect_references_step_patterns src d w)]
        exact hig
      have hck' : (collect_references_step src d w).containsKey k = true := by
        rw [containsKey_step]
        exact hck
      exact ih (collect_references_step src d w) k hk' hne hig' hck' hcnt e he

/-- Membership through the stable insertion. -/
theorem mem_insertUnusedSorted {x y : UnusedItem} {l : List UnusedItem} :
    x ∈ insertUnusedSorted y l ↔ x = y ∨ x ∈ l := by
  induction l with
  | nil => simp [insertUnusedSorted]
  | cons z zs ih =>
    rw [insertUnusedSorted]
    split
    · simp
    · simp only [List.mem_cons, ih]
      tauto

/-- Sorting permutes membership only. -/
theorem mem_sortUnused {x : UnusedItem} {l : List UnusedItem} :
    x ∈ sortUnused l ↔ x ∈ l := by
  induction l with
  | nil => simp [sortUnused]
  | cons y ys ih =>
    rw [show sortUnused (y :: ys) = insertUnusedSorted y (sortUnused ys) from rfl]
    rw [mem_insertUnusedSorted, ih, List.mem_cons]

/-- Every reported item stems from an unmarked map entry. -/
theorem mem_report_unused {d : UnusedDetector} {item : UnusedItem}
    (h : item ∈ d.report_unused) :
    ∃ k e, (k, e) ∈ d.defined_symbols ∧ e.used = false ∧ item = unused_item_of k e := by
  rw [UnusedDetector.report_unused] at h
  rcases List.mem_filterMap.mp (mem_sortUnused.mp h) with ⟨p, hp, hf⟩
  obtain ⟨pk, pe⟩ := p
  by_cases hu : pe.used
  · simp [hu] at hf
  · simp only [hu, if_neg, Bool.false_eq_true, if_false, Option.some.injEq] at hf
    exact ⟨pk, pe, hp, by simpa using hu, hf.symm⟩

/-- The comparison of `report_unused` is total. -/
theorem unusedLe_total (a b : UnusedItem) : unusedLe a b = true ∨ unusedLe b a = true := by
  simp only [unusedLe, Bool.or_eq_true, decide_eq_true_eq, Bool.and_eq_true]
  omega

/-- The comparison of `report_unused` is transitive. -/
theorem unusedLe_trans (a b c : UnusedItem) (h1 : unusedLe a b = true)
    (h2 : unusedLe b c = true) : unusedLe a c = true := by
  simp only [unusedLe, Bool.or_eq_true, decide_eq_true_eq, Bool.and_eq_true] at h1 h2 ⊢
  omega

/-- The stable insertion preserves sortedness. -/
theorem pairwise_insertUnusedSorted (x : UnusedItem) :
    ∀ (l : List UnusedItem), List.Pairwise (fun a b => unusedLe a b = true) l →
      List.Pairwise (fun a b => unusedLe a b = true) (insertUnusedSorted x l) := by
  intro l
  induction l with
  | nil =>
    intro _
    simp [insertUnusedSorted]
  | cons y ys ih =>
    intro hp
    rw [insertUnusedSorted]
    rcases List.pairwise_cons.mp hp with ⟨hy, hys⟩
    split
    · next hxy =>
      refine List.pairwise_cons.mpr ⟨?_, hp⟩
      intro z hz
      rcases List.mem_cons.mp hz with hz | hz
      · rw [hz]; exact hxy
      · exact unusedLe_trans x y z hxy (hy z hz)
    · next hxy =>
      refine List.pairwise_cons.mpr ⟨?_, ih hys⟩
      intro z hz
      rcases mem_insertUnusedSorted.mp hz with hz | hz
      · rw [hz]
        rcases unusedLe_total x y with h | h
        · exact absurd h hxy
        · exact h
      · exact hy z hz

/-- Insertion sorting yields a list sorted by the comparison. -/
theorem pairwise_sortUnused :
    ∀ (l : List UnusedItem),
      List.Pairwise (fun a b => unusedLe a b = true) (sortUnused l) := by
  intro l
  induction l with
  | nil => simp [sortUnused]
  | cons x xs ih =>
    rw [show sortUnused (x :: xs) = insertUnusedSorted x (sortUnused xs) from rfl]
    exact pairwise_insertUnusedSorted x _ ih

/-- `analyze` is the report over the reference scan of the definition
scan of a cleared detector (the explicit-reference replay is empty after
`clear`). -/
theorem analyze_eq (d0 : UnusedDetector) (symbols : List CoreSymbol) (source : Str) :
    d0.analyze symbols source =
      (collect_references (collect_definitions d0.clear symbols) source).report_unused := by
  have h1 : (collect_references (collect_definitions d0.clear symbols) source).references
      = [] := by
    rw [collect_references, collect_references_fold_references, collect_definitions_references]
    rfl
  simp only [UnusedDetector.analyze]
  rw [h1, List.foldl_nil]

/-- Collecting definitions of a single childless symbol is one
registration. -/
theorem collect_definitions_singleton (d : UnusedDetector) (name : Str)
    (kind : SymbolKind) (r sr : Range) (det : Option Str) :
    collect_definitions d [CoreSymbol.mk name kind r sr det []] =
      d.register_definition name sr kind := by
  simp only [collect_definitions]

/-- Concrete run of `analyze` on the `foo` symbol over `srcC10`: the
symbol is reported unused. -/
theorem analyze_symFoo_run :
    UnusedDetector.new.analyze [symFoo] srcC10 = [fooUnusedItem] := by
  rw [analyze_eq]
  simp only [symFoo]
  rw [collect_definitions_singleton]
  decide

/-- C10 counterexample: the detector reports `foo` as unused on a source
in which `foo` occurs twice as a raw substring — both occurrences are
embedded in longer identifiers and `foo` never appears as a standalone
word, so the substring count alone does not suppress the report, against
the claim. -/
theorem c10_unused_counterexample :
    (UnusedDetector.new.analyze [symFoo] srcC10).map UnusedItem.name = ["foo".toList] ∧
    countMatches srcC10 ("foo".toList) = 2 ∧
    (∀ w ∈ splitNonWord srcC10, w ≠ "foo".toList) := by
  refine ⟨?_, by decide, by decide⟩
  rw [analyze_symFoo_run]
  decide

/-- C10 (amended): `analyze` reports a defined symbol as unused only if
it is never marked used, where a symbol is marked used exactly when its
(non-empty) name occurs as a standalone word of the source AND the name's
raw-substring occurrence count in the source exceeds one — an occurrence
embedded inside a longer identifier counts toward the substring count and
suppresses the report only when the name also occurs somewhere as a
standalone word; a symbol whose name starts with an ignore pattern (by
default `_`) or equals one of the special names is never reported; and
the returned list is sorted by range start position (line, then
column). -/
theorem c10_unused_amended :
    (∀ (d0 : UnusedDetector) (symbols : List CoreSymbol) (source : Str) (item : UnusedItem),
      item ∈ d0.analyze symbols source →
      d0.should_ignore item.name = false ∧
      ¬(item.name ≠ [] ∧ item.name ∈ splitNonWord source ∧
        countMatches source item.name > 1)) ∧
    (∀ (d0 : UnusedDetector) (symbols : List CoreSymbol) (source : Str),
      List.Pairwise (fun a b => unusedLe a b = true) (d0.analyze symbols source)) := by
  constructor
  · intro d0 symbols source item hitem
    rw [analyze_eq] at hitem
    rcases mem_report_unused hitem with ⟨k, e, hmem, hused, hitemeq⟩
    have hname : item.name = k := by rw [hitemeq]; rfl
    have hmem1 : ∃ e1, (k, e1) ∈ (collect_definitions d0.clear symbols).defined_symbols := by
      rw [collect_references] at hmem
      exact mem_collect_references_fold source _ _ k e hmem
    have hig0 : d0.should_ignore k = false := by
      rcases hmem1 with ⟨e1, h1⟩
      rcases mem_collect_definitions _ _ k e1 h1 with ⟨e2, h2⟩ | hig
      · simp [UnusedDetector.clear] at h2
      · rw [should_ignore_congr d0.clear d0 k rfl] at hig
        exact hig
    refine ⟨by rw [hname]; exact hig0, ?_⟩
    rintro ⟨hne, hinw, hcnt⟩
    rw [hname] at hne hinw hcnt
    have hck1 : (collect_definitions d0.clear symbols).containsKey k = true := by
      rcases hmem1 with ⟨e1, h1⟩
      exact containsKey_of_mem h1
    have hig1 : (collect_definitions d0.clear symbols).should_ignore k = false := by
      rw [should_ignore_congr _ d0 k (by rw [collect_definitions_patterns]; rfl)]
      exact hig0
    have hu : e.used = true := by
      rw [collect_references] at hmem
      exact usedAt_after_words source (splitNonWord source) _ k hinw hne hig1 hck1 hcnt e hmem
    rw [hused] at hu
    cases hu
  · intro d0 symbols source
    rw [analyze_eq, UnusedDetector.report_unused]
    exact pairwise_sortUnused _

/-- C10 witness: `c10_unused_amended` applied to the fresh detector on
`srcC10` with the reported `foo` item, and the sortedness part on the
same run. -/
theorem c10_unused_witness :
    (UnusedDetector.new.should_ignore fooUnusedItem.name = false ∧
      ¬(fooUnusedItem.name ≠ [] ∧ fooUnusedItem.name ∈ splitNonWord srcC10 ∧
        countMatches srcC10 fooUnusedItem.name > 1)) ∧
    List.Pairwise (fun a b => unusedLe a b = true)
      (UnusedDetector.new.analyze [symFoo] srcC10) :=
  ⟨c10_unused_amended.1 UnusedDetector.new [symFoo] srcC10 fooUnusedItem
     (by rw [analyze_symFoo_run]; exact List.mem_singleton.mpr rfl),
   c10_unused_amended.2 UnusedDetector.new [symFoo] srcC10⟩

end unused
